import Mathlib

/-!
Verification of the dependency-injection core of the flasque repository.

The injection engine itself (type registry, scope contexts, the
`require`/`call` resolution algorithm) is exercised by
`tests/core/test_inject.py` and declared against in
`bolinette/core/injection/resolver.py`.  The definitions below are a shallow
embedding of that engine: classes are numeric identifiers, instances are
numeric heap addresses (so Python object identity `is` becomes equality of
addresses), and the resolution algorithm is a fuel-indexed recursive
function over an explicit context state.
-/

namespace Flasque

/-- Modelled from the spec: the `InjectionStrategy` enumeration of the three
lifetime strategies — Singleton (one instance per container tree), Scoped
(one instance per open session), Transcient (a fresh instance per
resolution, never cached).  The source spelling `Transcient` is kept. -/
inductive InjectionStrategy
  | Singleton
  | Scoped
  | Transcient
deriving DecidableEq, Repr

/-- Modelled from the spec: a `TypeDescriptor` — an origin class (numeric
class identifier) plus the tuple of concrete type arguments.  Two
descriptors are equal iff (origin, args) are equal, so `Container<A>` is not
`Container<B>`. -/
structure Ty where
  origin : Nat
  args : List Nat
deriving DecidableEq, Repr

/-- Modelled from the spec: a value bound to a parameter — Python `None`, an
ordinary instance (heap address), or the resolver/`Injection` object itself
(tagged with the session it is bound to, `none` for the root). -/
inductive Value
  | vnone
  | obj (id : Nat)
  | resolver (sess : Option Nat)
deriving DecidableEq, Repr

/-- Modelled from the spec: the shape of a parameter's type hint — a plain
concrete type, a nullable `T | None`, a true union of two or more non-null
members, or a missing hint. -/
inductive Annot
  | concrete (t : Ty)
  | nullable (t : Ty)
  | union (members : List Ty)
  | missing
deriving DecidableEq, Repr

/-- Modelled from the spec: one still-unbound parameter of a constructor or
initializer hook: its name, its type hint, and its declared literal default
value if any. -/
structure Param where
  name : String
  annot : Annot
  dflt : Option Value
deriving DecidableEq, Repr

/-- Modelled from the spec: one initializer hook declared on a class; it has
its own parameters, injected through the same binding algorithm. -/
structure Hook where
  params : List Param
deriving DecidableEq, Repr

/-- Modelled from the spec: one entry of the type registry — strategy,
constructor parameters, the class lineage (ancestor classes base-first,
ending with the class itself, used to collect initializer hooks), whether a
pre-built instance was supplied at registration, and the match-all flag. -/
structure TypeRegistration where
  strategy : InjectionStrategy
  params : List Param
  lineage : List Nat
  hasInstance : Bool
  matchAll : Bool
deriving DecidableEq, Repr

/-- Association-list lookup keyed by a decidable-equality key. -/
def assocFind {κ α : Type} [DecidableEq κ] : List (κ × α) → κ → Option α
  | [], _ => none
  | (k, v) :: rest, c => if k = c then some v else assocFind rest c

/-- Modelled from the spec: the `Injection` object's startup-time data — the
type registry (class id → registration) and the initializer hooks declared
directly on each class. -/
structure Injection where
  regs : List (Nat × TypeRegistration)
  hooks : List (Nat × List Hook)
deriving DecidableEq, Repr

/-- Registry lookup: the registration of a class, if any. -/
def Injection.find (inj : Injection) (c : Nat) : Option TypeRegistration :=
  assocFind inj.regs c

/-- Hooks declared directly on a class. -/
def Injection.hooksOn (inj : Injection) (c : Nat) : List Hook :=
  (assocFind inj.hooks c).getD []

/-- Modelled from the spec: all initializer hooks of a lineage, base-class
hooks first and most-derived last, each tagged with its class and its index
among that class's own hooks. -/
def allHooks (inj : Injection) (lineage : List Nat) : List (Nat × Nat × Hook) :=
  lineage.flatMap fun c => (inj.hooksOn c).enum.map fun e => (c, e.1, e.2)

/-- Modelled from the spec: the error taxonomy of the injection system. -/
inductive InjectionError
  | typeRegistered (c : Nat)
  | instanceNotSingleton (c : Nat)
  | typeNotRegistered (t : Ty)
  | annotationMissing (pname : String)
  | unionNotAllowed (pname : String)
  | scopedOutsideSession (t : Ty)
  | scopedInNonScoped (pname : String)
  | circularDependency (t : Ty)
  | outOfFuel
deriving DecidableEq, Repr

/-- Modelled from the spec: the introspectable record of one built instance —
the descriptor it was built from (whose `args` are the `GenericMeta` tag),
the values bound to its constructor parameters, and the trace of initializer
hooks run on it (class, hook index, the hook's own bound parameters). -/
structure ObjInfo where
  ty : Ty
  fields : List (String × Value)
  hookRuns : List (Nat × Nat × List (String × Value))
deriving DecidableEq, Repr

/-- Modelled from the spec: the `InjectionContext` state — the heap of built
instances (an instance is its heap address), the root (singleton) cache, and
one scoped cache per open session. -/
structure InjectionContext where
  heap : List ObjInfo
  root : List (Ty × Nat)
  sessions : List (List (Ty × Nat))
deriving DecidableEq, Repr

/-- First-match lookup in an instance cache. -/
def lookupCache : List (Ty × Nat) → Ty → Option Nat
  | [], _ => none
  | (t', i) :: rest, t => if t' = t then some i else lookupCache rest t

/-- Root (singleton) cache lookup. -/
def InjectionContext.rootGet (st : InjectionContext) (t : Ty) : Option Nat :=
  lookupCache st.root t

/-- Scoped (session) cache lookup. -/
def InjectionContext.sessGet (st : InjectionContext) (sid : Nat) (t : Ty) : Option Nat :=
  lookupCache ((st.sessions[sid]?).getD []) t

/-- The reserved class identifier of the `Injection` type itself: requiring
it returns the resolver rather than consulting the registry. -/
def injectionTypeId : Nat := 0

/-- Modelled from the spec: the strategy-directed cache lookup performed
before building — Singleton consults the root cache, Transcient never hits a
cache, Scoped requires an open session (else the scoped-outside-session
error) and consults that session's cache. -/
def cacheLookup (strategy : InjectionStrategy) (st : InjectionContext) (sess : Option Nat)
    (t : Ty) : Except InjectionError (Option Nat) :=
  match strategy with
  | .Singleton => .ok (st.rootGet t)
  | .Transcient => .ok none
  | .Scoped =>
    match sess with
    | none => .error (.scopedOutsideSession t)
    | some sid => .ok (st.sessGet sid t)

/-- Modelled from the spec: the strategy-directed caching of a freshly built
instance — Singleton in the root cache, Scoped in the current session's
cache, Transcient nowhere. -/
def cacheStore (strategy : InjectionStrategy) (st : InjectionContext) (sess : Option Nat)
    (t : Ty) (i : Nat) : InjectionContext :=
  match strategy with
  | .Singleton => { st with root := st.root ++ [(t, i)] }
  | .Transcient => st
  | .Scoped =>
    match sess with
    | none => st
    | some sid =>
      { st with sessions := st.sessions.set sid (((st.sessions[sid]?).getD []) ++ [(t, i)]) }

/-- Append a freshly built instance record to the heap. -/
def addObject (st : InjectionContext) (t : Ty) (flds : List (String × Value)) :
    InjectionContext :=
  { st with heap := st.heap ++ [⟨t, flds, []⟩] }

/-- Replace the instance record at a heap address. -/
def setObj (st : InjectionContext) (i : Nat) (o : ObjInfo) : InjectionContext :=
  { st with heap := st.heap.set i o }

mutual

/-- Modelled from the spec: the central type-resolution algorithm of
`Injection.require`.  Requiring the `Injection` type returns the resolver
itself; an unregistered type fails; otherwise the strategy cache is
consulted, and on a miss a fresh instance is built — the circular guard is
checked and pushed, constructor parameters are bound, the instance is
allocated and cached per strategy, and the lineage's initializer hooks run
base-first. -/
def resolveType (inj : Injection) : Nat → InjectionContext → Option Nat → List Ty → Ty →
    Except InjectionError (Value × InjectionContext)
  | 0, _, _, _, _ => .error .outOfFuel
  | fuel + 1, st, sess, guard, t =>
    if t.origin = injectionTypeId then .ok (.resolver sess, st)
    else
      match inj.find t.origin with
      | none => .error (.typeNotRegistered t)
      | some reg =>
        match cacheLookup reg.strategy st sess t with
        | .error e => .error e
        | .ok (some i) => .ok (.obj i, st)
        | .ok none =>
          if t ∈ guard then .error (.circularDependency t)
          else
            match resolveParams inj fuel st sess (t :: guard) reg.strategy reg.params with
            | .error e => .error e
            | .ok (flds, st1) =>
              match runHooks inj fuel (cacheStore reg.strategy (addObject st1 t flds) sess t
                  st1.heap.length) sess (t :: guard) reg.strategy (allHooks inj reg.lineage) with
              | .error e => .error e
              | .ok (runs, st3) =>
                .ok (.obj st1.heap.length, setObj st3 st1.heap.length ⟨t, flds, runs⟩)

/-- Modelled from the spec: bind a list of still-unbound parameters in
order, threading the context state. -/
def resolveParams (inj : Injection) : Nat → InjectionContext → Option Nat → List Ty →
    InjectionStrategy → List Param →
    Except InjectionError (List (String × Value) × InjectionContext)
  | 0, _, _, _, _, _ => .error .outOfFuel
  | _ + 1, st, _, _, _, [] => .ok ([], st)
  | fuel + 1, st, sess, guard, pstrat, p :: ps =>
    match resolveParamValue inj fuel st sess guard pstrat p with
    | .error e => .error e
    | .ok (v, st1) =>
      match resolveParams inj fuel st1 sess guard pstrat ps with
      | .error e => .error e
      | .ok (vs, st2) => .ok ((p.name, v) :: vs, st2)

/-- Modelled from the spec: bind one parameter — a missing hint fails, a
true union fails, a nullable hint with no registration falls back to the
default or to `None`, a concrete hint with no registration falls back to the
default or fails, and an existing registration is resolved through the
strategy algorithm after the scoped-in-non-scoped lifetime check (a Scoped
dependency is refused under a non-Scoped dependent, naming the parameter). -/
def resolveParamValue (inj : Injection) : Nat → InjectionContext → Option Nat → List Ty →
    InjectionStrategy → Param → Except InjectionError (Value × InjectionContext)
  | 0, _, _, _, _, _ => .error .outOfFuel
  | fuel + 1, st, sess, guard, pstrat, p =>
    match p.annot with
    | .missing => .error (.annotationMissing p.name)
    | .union _ => .error (.unionNotAllowed p.name)
    | .nullable u =>
      if u.origin = injectionTypeId then .ok (.resolver sess, st)
      else
        match inj.find u.origin with
        | none =>
          match p.dflt with
          | some v => .ok (v, st)
          | none => .ok (.vnone, st)
        | some ureg =>
          if ureg.strategy = .Scoped ∧ pstrat ≠ .Scoped then
            .error (.scopedInNonScoped p.name)
          else resolveType inj fuel st sess guard u
    | .concrete u =>
      if u.origin = injectionTypeId then .ok (.resolver sess, st)
      else
        match inj.find u.origin with
        | none =>
          match p.dflt with
          | some v => .ok (v, st)
          | none => .error (.typeNotRegistered u)
        | some ureg =>
          if ureg.strategy = .Scoped ∧ pstrat ≠ .Scoped then
            .error (.scopedInNonScoped p.name)
          else resolveType inj fuel st sess guard u

/-- Modelled from the spec: run the initializer hooks in order, binding each
hook's own parameters through the same algorithm and recording the trace. -/
def runHooks (inj : Injection) : Nat → InjectionContext → Option Nat → List Ty →
    InjectionStrategy → List (Nat × Nat × Hook) →
    Except InjectionError (List (Nat × Nat × List (String × Value)) × InjectionContext)
  | 0, _, _, _, _, _ => .error .outOfFuel
  | _ + 1, st, _, _, _, [] => .ok ([], st)
  | fuel + 1, st, sess, guard, pstrat, h :: hs =>
    match resolveParams inj fuel st sess guard pstrat h.2.2.params with
    | .error e => .error e
    | .ok (args, st1) =>
      match runHooks inj fuel st1 sess guard pstrat hs with
      | .error e => .error e
      | .ok (rest, st2) => .ok ((h.1, h.2.1, args) :: rest, st2)

end

/-- Modelled from the spec: `Injection.require` — resolve a type from a
resolver (root when `sess` is `none`, a scoped session otherwise) with an
empty circular guard. -/
def Injection.require (inj : Injection) (fuel : Nat) (st : InjectionContext)
    (sess : Option Nat) (t : Ty) : Except InjectionError (Value × InjectionContext) :=
  resolveType inj fuel st sess [] t

/-- Modelled from the spec: `get_scoped_session` — open a fresh child scope
context over the same root and return the new resolver's session id. -/
def get_scoped_session (st : InjectionContext) : Nat × InjectionContext :=
  (st.sessions.length, { st with sessions := st.sessions ++ [[]] })

/-- Modelled from the spec: `Injection.add` — register a class; fails with
the type-registered error if the class is already present and the new
registration is not match-all, and with the instance/strategy mismatch error
if a pre-built instance is supplied under a non-Singleton strategy.  On
failure the registry is returned unchanged alongside the error. -/
def Injection.add (inj : Injection) (c : Nat) (reg : TypeRegistration) :
    Injection × Option InjectionError :=
  if (inj.find c).isSome ∧ reg.matchAll = false then (inj, some (.typeRegistered c))
  else if reg.hasInstance ∧ reg.strategy ≠ .Singleton then
    (inj, some (.instanceNotSingleton c))
  else ({ inj with regs := inj.regs ++ [(c, reg)] }, none)

/-- The `GenericMeta` introspection of a built instance: the concrete
type-argument tuple it was tagged with at construction. -/
def genericMeta (st : InjectionContext) (i : Nat) : Option (List Nat) :=
  (st.heap[i]?).map fun o => o.ty.args

/-! ### Basic cache-lookup lemmas -/

theorem lookupCache_append_some {c : List (Ty × Nat)} {t : Ty} {i : Nat}
    (c' : List (Ty × Nat)) (h : lookupCache c t = some i) :
    lookupCache (c ++ c') t = some i := by
  induction c with
  | nil => simp [lookupCache] at h
  | cons e rest ih =>
    obtain ⟨t', j⟩ := e
    rw [List.cons_append]
    rw [lookupCache] at h ⊢
    split at h
    · rw [if_pos (by assumption)]
      exact h
    · rw [if_neg (by assumption)]
      exact ih h

theorem lookupCache_append_none {c : List (Ty × Nat)} {t : Ty}
    (c' : List (Ty × Nat)) (h : lookupCache c t = none) :
    lookupCache (c ++ c') t = lookupCache c' t := by
  induction c with
  | nil => simp
  | cons e rest ih =>
    obtain ⟨t', j⟩ := e
    rw [List.cons_append]
    rw [lookupCache] at h ⊢
    split at h
    · exact absurd h (by simp)
    · rw [if_neg (by assumption)]
      exact ih h

theorem lookupCache_store_self {c : List (Ty × Nat)} {t : Ty} {i : Nat}
    (h : lookupCache c t = none) : lookupCache (c ++ [(t, i)]) t = some i := by
  rw [lookupCache_append_none _ h]
  simp [lookupCache]

theorem lookupCache_store_none {c : List (Ty × Nat)} {t u : Ty} {i : Nat}
    (h : lookupCache c u = none) (hne : t ≠ u) :
    lookupCache (c ++ [(t, i)]) u = none := by
  rw [lookupCache_append_none _ h]
  simp [lookupCache, hne]

theorem lookupCache_mem {c : List (Ty × Nat)} {t : Ty} {i : Nat}
    (h : lookupCache c t = some i) : (t, i) ∈ c := by
  induction c with
  | nil => simp [lookupCache] at h
  | cons e rest ih =>
    obtain ⟨t', j⟩ := e
    rw [lookupCache] at h
    split at h
    · obtain rfl := (by assumption : t' = t)
      obtain rfl : j = i := by simpa using h
      exact List.mem_cons_self _ _
    · exact List.mem_cons_of_mem _ (ih h)

/-! ### State evolution predicates

`StExt st st'` says the context only grew: the heap kept every existing
record unchanged at its address, cached instances stayed cached, and no
session was created or destroyed.  `GuardKept guard st st'` says types
currently mid-construction that were uncached stayed uncached.  `Inv st`
says every cache entry points at a heap record built from its own
descriptor. -/

def StExt (st st' : InjectionContext) : Prop :=
  st.heap.length ≤ st'.heap.length ∧
  (∀ i, i < st.heap.length → st'.heap[i]? = st.heap[i]?) ∧
  (∀ t i, st.rootGet t = some i → st'.rootGet t = some i) ∧
  (∀ sid t i, st.sessGet sid t = some i → st'.sessGet sid t = some i) ∧
  st'.sessions.length = st.sessions.length

def GuardKept (guard : List Ty) (st st' : InjectionContext) : Prop :=
  ∀ u ∈ guard, (st.rootGet u = none → st'.rootGet u = none) ∧
    (∀ sid, st.sessGet sid u = none → st'.sessGet sid u = none)

def CacheOk (heap : List ObjInfo) (cache : List (Ty × Nat)) : Prop :=
  ∀ e ∈ cache, ∃ o, heap[e.2]? = some o ∧ o.ty = e.1

def Inv (st : InjectionContext) : Prop :=
  CacheOk st.heap st.root ∧ ∀ sid : Nat, CacheOk st.heap ((st.sessions[sid]?).getD [])

def Evolves (guard : List Ty) (st st' : InjectionContext) : Prop :=
  StExt st st' ∧ GuardKept guard st st' ∧ (Inv st → Inv st')

theorem stExt_refl (st : InjectionContext) : StExt st st :=
  ⟨le_refl _, fun _ _ => rfl, fun _ _ h => h, fun _ _ _ h => h, rfl⟩

theorem stExt_trans {a b c : InjectionContext} (h1 : StExt a b) (h2 : StExt b c) :
    StExt a c := by
  obtain ⟨l1, g1, r1, s1, n1⟩ := h1
  obtain ⟨l2, g2, r2, s2, n2⟩ := h2
  refine ⟨le_trans l1 l2, fun i hi => ?_, fun t i h => r2 _ _ (r1 _ _ h),
    fun sid t i h => s2 _ _ _ (s1 _ _ _ h), n2.trans n1⟩
  rw [g2 i (lt_of_lt_of_le hi l1), g1 i hi]

theorem evolves_refl {guard : List Ty} (st : InjectionContext) : Evolves guard st st :=
  ⟨stExt_refl st, fun _ _ => ⟨fun h => h, fun _ h => h⟩, fun h => h⟩

theorem evolves_trans {guard : List Ty} {a b c : InjectionContext}
    (h1 : Evolves guard a b) (h2 : Evolves guard b c) : Evolves guard a c := by
  obtain ⟨e1, k1, v1⟩ := h1
  obtain ⟨e2, k2, v2⟩ := h2
  refine ⟨stExt_trans e1 e2, fun u hu => ?_, fun h => v2 (v1 h)⟩
  obtain ⟨kr1, ks1⟩ := k1 u hu
  obtain ⟨kr2, ks2⟩ := k2 u hu
  exact ⟨fun h => kr2 (kr1 h), fun sid h => ks2 sid (ks1 sid h)⟩

theorem evolves_of_cons {guard : List Ty} {t : Ty} {a b : InjectionContext}
    (h : Evolves (t :: guard) a b) : Evolves guard a b := by
  obtain ⟨e, k, v⟩ := h
  exact ⟨e, fun u hu => k u (List.mem_cons_of_mem _ hu), v⟩

/-! ### Step lemmas for the primitive state operations -/

theorem cacheStore_heap (strat : InjectionStrategy) (st : InjectionContext)
    (sess : Option Nat) (t : Ty) (i : Nat) : (cacheStore strat st sess t i).heap = st.heap := by
  cases strat <;> first | rfl | (cases sess <;> rfl)

theorem cacheOk_append {heap : List ObjInfo} {cache : List (Ty × Nat)} (x : ObjInfo)
    (h : CacheOk heap cache) : CacheOk (heap ++ [x]) cache := by
  intro e he
  obtain ⟨o, ho, hty⟩ := h e he
  have hlt : e.2 < heap.length := (List.getElem?_eq_some.mp ho).1
  exact ⟨o, by rw [List.getElem?_append_left hlt]; exact ho, hty⟩

theorem cacheOk_store {heap : List ObjInfo} {cache : List (Ty × Nat)} {t : Ty}
    {flds : List (String × Value)} (h : CacheOk heap cache) :
    CacheOk (heap ++ [⟨t, flds, []⟩]) (cache ++ [(t, heap.length)]) := by
  intro e he
  rcases List.mem_append.mp he with h1 | h2
  · exact cacheOk_append _ h e h1
  · obtain rfl : e = (t, heap.length) := by simpa using h2
    exact ⟨⟨t, flds, []⟩, List.getElem?_concat_length _ _, rfl⟩

theorem evolves_build_store {guard : List Ty} {st1 : InjectionContext} {t : Ty}
    {flds : List (String × Value)} {sess : Option Nat} {strat : InjectionStrategy}
    (hg : t ∉ guard) :
    Evolves guard st1 (cacheStore strat (addObject st1 t flds) sess t st1.heap.length) := by
  have hne : ∀ u ∈ guard, t ≠ u := fun u hu he => hg (he ▸ hu)
  have hheap : ∀ i, i < st1.heap.length →
      (st1.heap ++ [(⟨t, flds, []⟩ : ObjInfo)])[i]? = st1.heap[i]? :=
    fun i hi => List.getElem?_append_left hi
  have hlen : st1.heap.length ≤ (st1.heap ++ [(⟨t, flds, []⟩ : ObjInfo)]).length := by
    simp
  cases strat with
  | Singleton =>
    refine ⟨⟨hlen, hheap, ?_, fun _ _ _ h => h, rfl⟩, ?_, ?_⟩
    · exact fun t' i h => lookupCache_append_some _ h
    · exact fun u hu => ⟨fun h => lookupCache_store_none h (hne u hu), fun _ h => h⟩
    · rintro ⟨hroot, hsess⟩
      exact ⟨cacheOk_store hroot, fun sid => cacheOk_append _ (hsess sid)⟩
  | Transcient =>
    refine ⟨⟨hlen, hheap, fun _ _ h => h, fun _ _ _ h => h, rfl⟩,
      fun u hu => ⟨fun h => h, fun _ h => h⟩, ?_⟩
    rintro ⟨hroot, hsess⟩
    exact ⟨cacheOk_append _ hroot, fun sid => cacheOk_append _ (hsess sid)⟩
  | Scoped =>
    cases sess with
    | none =>
      refine ⟨⟨hlen, hheap, fun _ _ h => h, fun _ _ _ h => h, rfl⟩,
        fun u hu => ⟨fun h => h, fun _ h => h⟩, ?_⟩
      rintro ⟨hroot, hsess⟩
      exact ⟨cacheOk_append _ hroot, fun sid => cacheOk_append _ (hsess sid)⟩
    | some sid =>
      refine ⟨⟨hlen, hheap, fun _ _ h => h, ?_, by simp [cacheStore, addObject]⟩, ?_, ?_⟩
      · intro sid' t' i h
        simp only [InjectionContext.sessGet, cacheStore, addObject, List.getElem?_set] at h ⊢
        by_cases hs : sid = sid'
        · subst hs
          by_cases hlt : sid < st1.sessions.length
          · rw [if_pos rfl, if_pos hlt]
            exact lookupCache_append_some _ h
          · rw [List.getElem?_len_le (le_of_not_lt hlt)] at h
            simp [lookupCache] at h
        · rw [if_neg hs]
          exact h
      · intro u hu
        refine ⟨fun h => h, fun sid' h => ?_⟩
        simp only [InjectionContext.sessGet, cacheStore, addObject, List.getElem?_set] at h ⊢
        by_cases hs : sid = sid'
        · subst hs
          by_cases hlt : sid < st1.sessions.length
          · rw [if_pos rfl, if_pos hlt]
            exact lookupCache_store_none h (hne u hu)
          · rw [if_pos rfl, if_neg hlt]
            simp [lookupCache]
        · rw [if_neg hs]
          exact h
      · rintro ⟨hroot, hsess⟩
        refine ⟨cacheOk_append _ hroot, fun sid' => ?_⟩
        simp only [cacheStore, addObject, List.getElem?_set]
        by_cases hs : sid = sid'
        · subst hs
          by_cases hlt : sid < st1.sessions.length
          · rw [if_pos rfl, if_pos hlt]
            simp only [Option.getD_some]
            exact cacheOk_store (hsess sid)
          · rw [if_pos rfl, if_neg hlt]
            intro e he
            simp at he
        · rw [if_neg hs]
          exact cacheOk_append _ (hsess sid')

theorem stExt_setObj_of_le {st0 st : InjectionContext} {i : Nat} {o : ObjInfo}
    (h : StExt st0 st) (hle : st0.heap.length ≤ i) : StExt st0 (setObj st i o) := by
  obtain ⟨l, g, r, s, n⟩ := h
  refine ⟨by simpa [setObj] using l, fun j hj => ?_, r, s, n⟩
  rw [setObj]
  simp only
  rw [List.getElem?_set_ne (by omega)]
  exact g j hj

theorem guardKept_setObj {guard : List Ty} {st0 st : InjectionContext} {i : Nat}
    {o : ObjInfo} (h : GuardKept guard st0 st) : GuardKept guard st0 (setObj st i o) := h

theorem inv_setObj {st : InjectionContext} {i : Nat} {o o0 : ObjInfo}
    (hinv : Inv st) (hobj : st.heap[i]? = some o0) (hty : o.ty = o0.ty) :
    Inv (setObj st i o) := by
  obtain ⟨hroot, hsess⟩ := hinv
  have hlt : i < st.heap.length := (List.getElem?_eq_some.mp hobj).1
  have key : ∀ cache, CacheOk st.heap cache → CacheOk (st.heap.set i o) cache := by
    intro cache hc e he
    obtain ⟨oe, hoe, htye⟩ := hc e he
    by_cases hei : e.2 = i
    · subst hei
      obtain rfl : oe = o0 := by rw [hobj] at hoe; exact (Option.some.injEq _ _).mp hoe.symm
      exact ⟨o, by rw [List.getElem?_set_self hlt], hty.trans htye⟩
    · exact ⟨oe, by rw [List.getElem?_set_ne (fun h => hei h.symm)]; exact hoe, htye⟩
  exact ⟨key _ hroot, fun sid => key _ (hsess sid)⟩

theorem open_session_spec (st : InjectionContext) :
    (get_scoped_session st).2.heap = st.heap ∧
    (get_scoped_session st).2.root = st.root ∧
    (∀ sid t i, st.sessGet sid t = some i → (get_scoped_session st).2.sessGet sid t = some i) ∧
    (get_scoped_session st).1 = st.sessions.length ∧
    (get_scoped_session st).2.sessions.length = st.sessions.length + 1 ∧
    (∀ u, (get_scoped_session st).2.sessGet st.sessions.length u = none) := by
  refine ⟨rfl, rfl, ?_, rfl, by simp [get_scoped_session], ?_⟩
  · intro sid t i h
    simp only [InjectionContext.sessGet, get_scoped_session] at h ⊢
    by_cases hlt : sid < st.sessions.length
    · rw [List.getElem?_append_left hlt]
      exact h
    · rw [List.getElem?_len_le (le_of_not_lt hlt)] at h
      simp [lookupCache] at h
  · intro u
    simp [InjectionContext.sessGet, get_scoped_session, List.getElem?_concat_length,
      lookupCache]

/-! ### The main evolution induction

One ok-result of any of the four mutually recursive resolution functions
only grows the context (`Evolves`), and a resolved instance's heap record
carries the descriptor it was resolved for. -/

theorem inv_cacheLookup {strat : InjectionStrategy} {st : InjectionContext}
    {sess : Option Nat} {t : Ty} {i : Nat}
    (h : cacheLookup strat st sess t = .ok (some i)) (hinv : Inv st) :
    ∃ o, st.heap[i]? = some o ∧ o.ty = t := by
  obtain ⟨hroot, hsess⟩ := hinv
  cases strat with
  | Singleton =>
    simp only [cacheLookup, Except.ok.injEq] at h
    exact hroot _ (lookupCache_mem h)
  | Transcient => simp [cacheLookup] at h
  | Scoped =>
    cases sess with
    | none => simp [cacheLookup] at h
    | some sid =>
      simp only [cacheLookup, Except.ok.injEq] at h
      exact hsess sid _ (lookupCache_mem h)

theorem resolve_evolves (inj : Injection) : ∀ fuel : Nat,
    (∀ st sess guard t v st',
      resolveType inj fuel st sess guard t = .ok (v, st') →
      Evolves guard st st' ∧
        (Inv st → ∀ i, v = .obj i → ∃ o, st'.heap[i]? = some o ∧ o.ty = t)) ∧
    (∀ st sess guard pstrat ps flds st',
      resolveParams inj fuel st sess guard pstrat ps = .ok (flds, st') →
      Evolves guard st st') ∧
    (∀ st sess guard pstrat p v st',
      resolveParamValue inj fuel st sess guard pstrat p = .ok (v, st') →
      Evolves guard st st') ∧
    (∀ st sess guard pstrat hs runs st',
      runHooks inj fuel st sess guard pstrat hs = .ok (runs, st') →
      Evolves guard st st') := by
  intro fuel
  induction fuel with
  | zero =>
    refine ⟨?_, ?_, ?_, ?_⟩
    · intro st sess guard t v st' h
      simp [resolveType] at h
    · intro st sess guard pstrat ps flds st' h
      simp [resolveParams] at h
    · intro st sess guard pstrat p v st' h
      simp [resolveParamValue] at h
    · intro st sess guard pstrat hs runs st' h
      simp [runHooks] at h
  | succ f ih =>
    obtain ⟨ihT, ihP, ihV, ihH⟩ := ih
    refine ⟨?_, ?_, ?_, ?_⟩
    · -- resolveType
      intro st sess guard t v st' h
      simp only [resolveType] at h
      split at h
      · -- the Injection type resolves to the resolver itself
        obtain ⟨rfl, rfl⟩ : Value.resolver sess = v ∧ st = st' := by
          simpa using h
        exact ⟨evolves_refl st, fun _ i hv => by simp at hv⟩
      · split at h
        · exact absurd h (by simp)
        · rename_i reg hfind
          split at h
          · exact absurd h (by simp)
          · -- cache hit
            rename_i i0 hcache
            obtain ⟨rfl, rfl⟩ : Value.obj i0 = v ∧ st = st' := by simpa using h
            refine ⟨evolves_refl st, fun hinv i hv => ?_⟩
            obtain rfl : i0 = i := by simpa using hv
            exact inv_cacheLookup hcache hinv
          · -- cache miss: fresh build
            rename_i hcache
            split at h
            · exact absurd h (by simp)
            · rename_i hguard
              split at h
              · exact absurd h (by simp)
              · rename_i flds st1 hp
                split at h
                · exact absurd h (by simp)
                · rename_i runs st3 hh
                  obtain ⟨rfl, rfl⟩ : Value.obj st1.heap.length = v ∧
                      setObj st3 st1.heap.length ⟨t, flds, runs⟩ = st' := by simpa using h
                  have e1 : Evolves guard st st1 :=
                    evolves_of_cons (ihP _ _ _ _ _ _ _ hp)
                  have e2 : Evolves guard st1 (cacheStore reg.strategy (addObject st1 t flds)
                      sess t st1.heap.length) := evolves_build_store hguard
                  have e3 : Evolves guard (cacheStore reg.strategy (addObject st1 t flds)
                      sess t st1.heap.length) st3 := evolves_of_cons (ihH _ _ _ _ _ _ _ hh)
                  have e123 : Evolves guard st st3 :=
                    evolves_trans (evolves_trans e1 e2) e3
                  have hle : st.heap.length ≤ st1.heap.length := e1.1.1
                  have hmid : (cacheStore reg.strategy (addObject st1 t flds)
                      sess t st1.heap.length).heap[st1.heap.length]? =
                      some ⟨t, flds, []⟩ := by
                    rw [cacheStore_heap]
                    exact List.getElem?_concat_length _ _
                  have hmidlt : st1.heap.length < (cacheStore reg.strategy
                      (addObject st1 t flds) sess t st1.heap.length).heap.length := by
                    rw [cacheStore_heap]
                    simp [addObject]
                  have h3obj : st3.heap[st1.heap.length]? = some ⟨t, flds, []⟩ := by
                    rw [e3.1.2.1 _ hmidlt]
                    exact hmid
                  have h3lt : st1.heap.length < st3.heap.length :=
                    lt_of_lt_of_le hmidlt e3.1.1
                  refine ⟨⟨stExt_setObj_of_le e123.1 hle, guardKept_setObj e123.2.1,
                    fun hinv => inv_setObj (e123.2.2 hinv) h3obj rfl⟩, ?_⟩
                  intro _ i hv
                  obtain rfl : st1.heap.length = i := by simpa using hv
                  refine ⟨⟨t, flds, runs⟩, ?_, rfl⟩
                  show (setObj st3 _ _).heap[_]? = _
                  rw [setObj]
                  simp only
                  rw [List.getElem?_set_self h3lt]
    · -- resolveParams
      intro st sess guard pstrat ps flds st' h
      cases ps with
      | nil =>
        simp only [resolveParams] at h
        obtain ⟨rfl, rfl⟩ : ([] : List (String × Value)) = flds ∧ st = st' := by simpa using h
        exact evolves_refl st
      | cons p ps =>
        simp only [resolveParams] at h
        split at h
        · exact absurd h (by simp)
        · rename_i v0 st1 hv0
          split at h
          · exact absurd h (by simp)
          · rename_i vs st2 hvs
            obtain ⟨rfl, rfl⟩ : (p.name, v0) :: vs = flds ∧ st2 = st' := by simpa using h
            exact evolves_trans (ihV _ _ _ _ _ _ _ hv0) (ihP _ _ _ _ _ _ _ hvs)
    · -- resolveParamValue
      intro st sess guard pstrat p v st' h
      simp only [resolveParamValue] at h
      split at h
      · exact absurd h (by simp)
      · exact absurd h (by simp)
      · -- nullable
        split at h
        · obtain ⟨rfl, rfl⟩ : Value.resolver sess = v ∧ st = st' := by simpa using h
          exact evolves_refl st
        · split at h
          · split at h
            · obtain ⟨rfl, rfl⟩ : _ ∧ st = st' := by simpa using h
              exact evolves_refl st
            · obtain ⟨rfl, rfl⟩ : Value.vnone = v ∧ st = st' := by simpa using h
              exact evolves_refl st
          · split at h
            · exact absurd h (by simp)
            · exact (ihT _ _ _ _ _ _ h).1
      · -- concrete
        split at h
        · obtain ⟨rfl, rfl⟩ : Value.resolver sess = v ∧ st = st' := by simpa using h
          exact evolves_refl st
        · split at h
          · split at h
            · obtain ⟨rfl, rfl⟩ : _ ∧ st = st' := by simpa using h
              exact evolves_refl st
            · exact absurd h (by simp)
          · split at h
            · exact absurd h (by simp)
            · exact (ihT _ _ _ _ _ _ h).1
    · -- runHooks
      intro st sess guard pstrat hs runs st' h
      cases hs with
      | nil =>
        simp only [runHooks] at h
        obtain ⟨rfl, rfl⟩ : ([] : List (Nat × Nat × List (String × Value))) = runs ∧
            st = st' := by simpa using h
        exact evolves_refl st
      | cons h0 hs =>
        simp only [runHooks] at h
        split at h
        · exact absurd h (by simp)
        · rename_i args st1 hargs
          split at h
          · exact absurd h (by simp)
          · rename_i rest st2 hrest
            obtain ⟨rfl, rfl⟩ : (h0.1, h0.2.1, args) :: rest = runs ∧ st2 = st' := by
              simpa using h
            exact evolves_trans (ihP _ _ _ _ _ _ _ hargs) (ihH _ _ _ _ _ _ _ hrest)

/-! ### Inversion of one resolution step -/

theorem cacheStore_root_self {st : InjectionContext} {t : Ty} {i : Nat} (sess : Option Nat)
    (h : st.rootGet t = none) :
    (cacheStore .Singleton st sess t i).rootGet t = some i := by
  simp only [cacheStore, InjectionContext.rootGet] at h ⊢
  exact lookupCache_store_self h

theorem cacheStore_sess_self {st : InjectionContext} {t : Ty} {i sid : Nat}
    (hlt : sid < st.sessions.length) (h : st.sessGet sid t = none) :
    (cacheStore .Scoped st (some sid) t i).sessGet sid t = some i := by
  simp only [cacheStore, InjectionContext.sessGet] at h ⊢
  rw [List.getElem?_set]
  rw [if_pos rfl, if_pos hlt]
  simp only [Option.getD_some]
  exact lookupCache_store_self h

/-- A cache miss forces a fresh build; this inverts the build path of
`resolveType` into its parameter-binding and hook-running components. -/
theorem resolveType_build_inv {inj : Injection} {f : Nat} {st : InjectionContext}
    {sess : Option Nat} {guard : List Ty} {t : Ty} {reg : TypeRegistration}
    {v : Value} {st' : InjectionContext}
    (hreg : inj.find t.origin = some reg) (hinjd : t.origin ≠ injectionTypeId)
    (hmiss : cacheLookup reg.strategy st sess t = .ok none)
    (h : resolveType inj (f + 1) st sess guard t = .ok (v, st')) :
    t ∉ guard ∧ ∃ flds st1 runs st3,
      resolveParams inj f st sess (t :: guard) reg.strategy reg.params = .ok (flds, st1) ∧
      runHooks inj f (cacheStore reg.strategy (addObject st1 t flds) sess t st1.heap.length)
        sess (t :: guard) reg.strategy (allHooks inj reg.lineage) = .ok (runs, st3) ∧
      v = .obj st1.heap.length ∧
      st' = setObj st3 st1.heap.length ⟨t, flds, runs⟩ ∧
      st'.heap[st1.heap.length]? = some ⟨t, flds, runs⟩ ∧
      st1.heap.length < st'.heap.length ∧
      st.heap.length ≤ st1.heap.length := by
  simp only [resolveType] at h
  split at h
  · exact absurd (by assumption) hinjd
  · split at h
    · rename_i hnone
      rw [hreg] at hnone
      exact absurd hnone (by simp)
    · rename_i reg' hfind
      rw [hreg] at hfind
      obtain rfl : reg = reg' := by injection hfind
      split at h
      · rename_i e hce
        rw [hmiss] at hce
        exact absurd hce (by simp)
      · rename_i i0 hce
        rw [hmiss] at hce
        exact absurd hce (by simp)
      · split at h
        · exact absurd h (by simp)
        · rename_i hguard
          split at h
          · exact absurd h (by simp)
          · rename_i flds st1 hp
            split at h
            · exact absurd h (by simp)
            · rename_i runs st3 hh
              obtain ⟨rfl, rfl⟩ : Value.obj st1.heap.length = v ∧
                  setObj st3 st1.heap.length ⟨t, flds, runs⟩ = st' := by simpa using h
              have ep : Evolves (t :: guard) st st1 :=
                ((resolve_evolves inj f).2.1 _ _ _ _ _ _ _ hp)
              have eh : Evolves (t :: guard) _ st3 :=
                ((resolve_evolves inj f).2.2.2 _ _ _ _ _ _ _ hh)
              have hmidlen : (cacheStore reg.strategy (addObject st1 t flds) sess t
                  st1.heap.length).heap.length = st1.heap.length + 1 := by
                rw [cacheStore_heap]
                simp [addObject]
              have h3len : st1.heap.length < st3.heap.length := by
                have := eh.1.1
                omega
              refine ⟨hguard, flds, st1, runs, st3, hp, hh, rfl, rfl, ?_, ?_, ep.1.1⟩
              · show (setObj st3 _ _).heap[_]? = _
                rw [setObj]
                simp only
                rw [List.getElem?_set_self h3len]
              · show _ < (setObj st3 _ _).heap.length
                rw [setObj]
                simpa using h3len

/-- A Singleton resolution returns an instance that is afterwards in the
root cache; when the root cache already held the type, that very instance is
returned and the state is untouched. -/
theorem resolveType_singleton_spec {inj : Injection} {fuel : Nat} {st : InjectionContext}
    {sess : Option Nat} {guard : List Ty} {t : Ty} {reg : TypeRegistration}
    {v : Value} {st' : InjectionContext}
    (hreg : inj.find t.origin = some reg) (hstrat : reg.strategy = .Singleton)
    (hinjd : t.origin ≠ injectionTypeId)
    (h : resolveType inj fuel st sess guard t = .ok (v, st')) :
    ∃ s, v = .obj s ∧ st'.rootGet t = some s ∧
      ∀ s0, st.rootGet t = some s0 → s = s0 ∧ st' = st := by
  cases fuel with
  | zero => simp [resolveType] at h
  | succ f =>
    cases hroot : st.rootGet t with
    | some i =>
      have hhit : cacheLookup reg.strategy st sess t = .ok (some i) := by
        rw [hstrat]
        simp [cacheLookup, hroot]
      rw [resolveType] at h
      rw [if_neg hinjd] at h
      split at h
      · rename_i hnone
        rw [hreg] at hnone
        exact absurd hnone (by simp)
      · rename_i reg' hfind
        rw [hreg] at hfind
        obtain rfl : reg = reg' := by injection hfind
        split at h
        · rename_i e hce
          rw [hhit] at hce
          exact absurd hce (by simp)
        · rename_i i0 hce
          rw [hhit] at hce
          obtain rfl : i = i0 := by simpa using hce
          obtain ⟨rfl, rfl⟩ : Value.obj i = v ∧ st = st' := by simpa using h
          exact ⟨i, rfl, hroot, fun s0 hs0 => ⟨by simpa using hs0, rfl⟩⟩
        · rename_i hce
          rw [hhit] at hce
          exact absurd hce (by simp)
    | none =>
      have hmiss : cacheLookup reg.strategy st sess t = .ok none := by
        rw [hstrat]
        simp [cacheLookup, hroot]
      obtain ⟨hguard, flds, st1, runs, st3, hp, hh, rfl, rfl, -, -, -⟩ :=
        resolveType_build_inv hreg hinjd hmiss h
      have ep : Evolves (t :: guard) st st1 := (resolve_evolves inj f).2.1 _ _ _ _ _ _ _ hp
      have h1none : st1.rootGet t = none :=
        (ep.2.1 t (List.mem_cons_self _ _)).1 hroot
      have h2some : (cacheStore reg.strategy (addObject st1 t flds) sess t
          st1.heap.length).rootGet t = some st1.heap.length := by
        rw [hstrat]
        exact cacheStore_root_self sess h1none
      have eh : Evolves (t :: guard) _ st3 := (resolve_evolves inj f).2.2.2 _ _ _ _ _ _ _ hh
      have h3some : st3.rootGet t = some st1.heap.length := eh.1.2.2.1 _ _ h2some
      refine ⟨st1.heap.length, rfl, h3some, fun s0 hs0 => ?_⟩
      exact absurd hs0 (by simp)

/-- A Transcient resolution always returns a freshly allocated instance. -/
theorem resolveType_transcient_spec {inj : Injection} {fuel : Nat} {st : InjectionContext}
    {sess : Option Nat} {guard : List Ty} {t : Ty} {reg : TypeRegistration}
    {v : Value} {st' : InjectionContext}
    (hreg : inj.find t.origin = some reg) (hstrat : reg.strategy = .Transcient)
    (hinjd : t.origin ≠ injectionTypeId)
    (h : resolveType inj fuel st sess guard t = .ok (v, st')) :
    ∃ x, v = .obj x ∧ st.heap.length ≤ x ∧ x < st'.heap.length := by
  cases fuel with
  | zero => simp [resolveType] at h
  | succ f =>
    have hmiss : cacheLookup reg.strategy st sess t = .ok none := by
      rw [hstrat]
      simp [cacheLookup]
    obtain ⟨-, flds, st1, runs, st3, -, -, rfl, rfl, -, hlt, hle⟩ :=
      resolveType_build_inv hreg hinjd hmiss h
    exact ⟨st1.heap.length, rfl, hle, hlt⟩

/-- A Scoped resolution in a session whose cache does not hold the type
returns a freshly allocated instance and caches it in that session. -/
theorem resolveType_scoped_spec {inj : Injection} {fuel : Nat} {st : InjectionContext}
    {guard : List Ty} {t : Ty} {reg : TypeRegistration} {sid : Nat}
    {v : Value} {st' : InjectionContext}
    (hreg : inj.find t.origin = some reg) (hstrat : reg.strategy = .Scoped)
    (hinjd : t.origin ≠ injectionTypeId)
    (hmisss : st.sessGet sid t = none) (hlt : sid < st.sessions.length)
    (h : resolveType inj fuel st (some sid) guard t = .ok (v, st')) :
    ∃ x, v = .obj x ∧ st.heap.length ≤ x ∧ x < st'.heap.length ∧
      st'.sessGet sid t = some x := by
  cases fuel with
  | zero => simp [resolveType] at h
  | succ f =>
    have hmiss : cacheLookup reg.strategy st (some sid) t = .ok none := by
      rw [hstrat]
      simp [cacheLookup, hmisss]
    obtain ⟨hguard, flds, st1, runs, st3, hp, hh, rfl, rfl, -, hltf, hle⟩ :=
      resolveType_build_inv hreg hinjd hmiss h
    have ep : Evolves (t :: guard) st st1 := (resolve_evolves inj f).2.1 _ _ _ _ _ _ _ hp
    have h1none : st1.sessGet sid t = none :=
      (ep.2.1 t (List.mem_cons_self _ _)).2 sid hmisss
    have h1lt : sid < (addObject st1 t flds).sessions.length := by
      have := ep.1.2.2.2.2
      simp only [addObject]
      omega
    have h1none' : (addObject st1 t flds).sessGet sid t = none := h1none
    have h2some : (cacheStore reg.strategy (addObject st1 t flds) (some sid) t
        st1.heap.length).sessGet sid t = some st1.heap.length := by
      rw [hstrat]
      exact cacheStore_sess_self h1lt h1none'
    have eh : Evolves (t :: guard) _ st3 := (resolve_evolves inj f).2.2.2 _ _ _ _ _ _ _ hh
    have h3some : st3.sessGet sid t = some st1.heap.length := eh.1.2.2.2.1 _ _ _ h2some
    exact ⟨st1.heap.length, rfl, hle, hltf, h3some⟩

/-! ### Structure of bound parameter lists and hook traces -/

/-- Parameter binding binds exactly the declared parameters, in order. -/
theorem resolveParams_names {inj : Injection} : ∀ (fuel : Nat) {st : InjectionContext}
    {sess : Option Nat} {guard : List Ty} {pstrat : InjectionStrategy} {ps : List Param}
    {flds : List (String × Value)} {st' : InjectionContext},
    resolveParams inj fuel st sess guard pstrat ps = .ok (flds, st') →
    flds.map Prod.fst = ps.map Param.name := by
  intro fuel
  induction fuel with
  | zero =>
    intro st sess guard pstrat ps flds st' h
    simp [resolveParams] at h
  | succ f ih =>
    intro st sess guard pstrat ps flds st' h
    cases ps with
    | nil =>
      simp only [resolveParams] at h
      obtain ⟨rfl, rfl⟩ : ([] : List (String × Value)) = flds ∧ st = st' := by simpa using h
      simp
    | cons p ps =>
      simp only [resolveParams] at h
      split at h
      · exact absurd h (by simp)
      · rename_i v0 st1 hv0
        split at h
        · exact absurd h (by simp)
        · rename_i vs st2 hvs
          obtain ⟨rfl, rfl⟩ : (p.name, v0) :: vs = flds ∧ st2 = st' := by simpa using h
          simp [ih hvs]

/-- The hook trace of a build lists exactly the given hooks, in order, each
run once with its own declared parameters bound. -/
theorem runHooks_trace {inj : Injection} : ∀ (fuel : Nat) {st : InjectionContext}
    {sess : Option Nat} {guard : List Ty} {pstrat : InjectionStrategy}
    {hs : List (Nat × Nat × Hook)} {runs : List (Nat × Nat × List (String × Value))}
    {st' : InjectionContext},
    runHooks inj fuel st sess guard pstrat hs = .ok (runs, st') →
    runs.map (fun r => (r.1, r.2.1)) = hs.map (fun x => (x.1, x.2.1)) ∧
    runs.map (fun r => r.2.2.map Prod.fst) = hs.map (fun x => x.2.2.params.map Param.name) := by
  intro fuel
  induction fuel with
  | zero =>
    intro st sess guard pstrat hs runs st' h
    simp [runHooks] at h
  | succ f ih =>
    intro st sess guard pstrat hs runs st' h
    cases hs with
    | nil =>
      simp only [runHooks] at h
      obtain ⟨rfl, rfl⟩ : ([] : List (Nat × Nat × List (String × Value))) = runs ∧
          st = st' := by simpa using h
      simp
    | cons h0 hs =>
      simp only [runHooks] at h
      split at h
      · exact absurd h (by simp)
      · rename_i args st1 hargs
        split at h
        · exact absurd h (by simp)
        · rename_i rest st2 hrest
          obtain ⟨rfl, rfl⟩ : (h0.1, h0.2.1, args) :: rest = runs ∧ st2 = st' := by
            simpa using h
          obtain ⟨ih1, ih2⟩ := ih hrest
          exact ⟨by simp [ih1], by simp [ih2, resolveParams_names _ hargs]⟩

/-- The value bound at the position of a Singleton-typed parameter: it is an
instance that is afterwards in the root cache, and if the root cache already
held that type before the parameter list was processed, it is that very
cached instance. -/
theorem resolveParams_singleton_at {inj : Injection} {p : Param} {u : Ty}
    {ureg : TypeRegistration} {ps2 : List Param} {sess : Option Nat}
    {pstrat : InjectionStrategy}
    (hann : p.annot = .concrete u) (hinjd : u.origin ≠ injectionTypeId)
    (hureg : inj.find u.origin = some ureg) (hstrat : ureg.strategy = .Singleton) :
    ∀ (ps1 : List Param) (fuel : Nat) (st : InjectionContext) (guard : List Ty)
      (flds : List (String × Value)) (st' : InjectionContext),
      resolveParams inj fuel st sess guard pstrat (ps1 ++ p :: ps2) = .ok (flds, st') →
      ∃ s, flds[ps1.length]? = some (p.name, .obj s) ∧ st'.rootGet u = some s ∧
        ∀ s0, st.rootGet u = some s0 → s = s0 := by
  intro ps1
  induction ps1 with
  | nil =>
    intro fuel st guard flds st' h
    cases fuel with
    | zero => simp [resolveParams] at h
    | succ f =>
      rw [List.nil_append] at h
      simp only [resolveParams] at h
      split at h
      · exact absurd h (by simp)
      · rename_i v0 st1 hv0
        split at h
        · exact absurd h (by simp)
        · rename_i vs st2 hvs
          obtain ⟨rfl, rfl⟩ : (p.name, v0) :: vs = flds ∧ st2 = st' := by simpa using h
          cases f with
          | zero => simp [resolveParamValue] at hv0
          | succ g =>
            simp only [resolveParamValue] at hv0
            split at hv0
            · rename_i heq
              rw [hann] at heq
              exact absurd heq (by simp)
            · rename_i heq
              rw [hann] at heq
              exact absurd heq (by simp)
            · rename_i u' heq
              rw [hann] at heq
              exact absurd heq (by simp)
            · rename_i u' heq
              rw [hann] at heq
              obtain rfl : u = u' := by injection heq
              split at hv0
              · exact absurd (by assumption) hinjd
              · split at hv0
                · rename_i hnone
                  rw [hureg] at hnone
                  exact absurd hnone (by simp)
                · rename_i ureg' hfind
                  rw [hureg] at hfind
                  obtain rfl : ureg = ureg' := by injection hfind
                  split at hv0
                  · rename_i hcond
                    rw [hstrat] at hcond
                    simp at hcond
                  · obtain ⟨s, rfl, hroot1, hclause⟩ :=
                      resolveType_singleton_spec hureg hstrat hinjd hv0
                    have ev : Evolves guard st1 st2 :=
                      (resolve_evolves inj _).2.1 _ _ _ _ _ _ _ hvs
                    refine ⟨s, by simp, ev.1.2.2.1 _ _ hroot1, fun s0 hs0 => ?_⟩
                    exact (hclause s0 hs0).1
  | cons q ps1 ih =>
    intro fuel st guard flds st' h
    cases fuel with
    | zero => simp [resolveParams] at h
    | succ f =>
      rw [List.cons_append] at h
      simp only [resolveParams] at h
      split at h
      · exact absurd h (by simp)
      · rename_i v0 st1 hv0
        split at h
        · exact absurd h (by simp)
        · rename_i vs st2 hvs
          obtain ⟨rfl, rfl⟩ : (q.name, v0) :: vs = flds ∧ st2 = st' := by simpa using h
          obtain ⟨s, hidx, hroot', hclause'⟩ := ih _ _ _ _ _ hvs
          have ev0 : Evolves guard st st1 :=
            (resolve_evolves inj f).2.2.1 _ _ _ _ _ _ _ hv0
          refine ⟨s, by simpa using hidx, hroot', fun s0 hs0 => ?_⟩
          exact hclause' s0 (ev0.1.2.2.1 _ _ hs0)

/-- The value bound at the position of a Transcient-typed parameter: it is
an instance freshly allocated while the parameter list was processed. -/
theorem resolveParams_transcient_at {inj : Injection} {p : Param} {u : Ty}
    {ureg : TypeRegistration} {ps2 : List Param} {sess : Option Nat}
    {pstrat : InjectionStrategy}
    (hann : p.annot = .concrete u) (hinjd : u.origin ≠ injectionTypeId)
    (hureg : inj.find u.origin = some ureg) (hstrat : ureg.strategy = .Transcient) :
    ∀ (ps1 : List Param) (fuel : Nat) (st : InjectionContext) (guard : List Ty)
      (flds : List (String × Value)) (st' : InjectionContext),
      resolveParams inj fuel st sess guard pstrat (ps1 ++ p :: ps2) = .ok (flds, st') →
      ∃ x, flds[ps1.length]? = some (p.name, .obj x) ∧ st.heap.length ≤ x ∧
        x < st'.heap.length := by
  intro ps1
  induction ps1 with
  | nil =>
    intro fuel st guard flds st' h
    cases fuel with
    | zero => simp [resolveParams] at h
    | succ f =>
      rw [List.nil_append] at h
      simp only [resolveParams] at h
      split at h
      · exact absurd h (by simp)
      · rename_i v0 st1 hv0
        split at h
        · exact absurd h (by simp)
        · rename_i vs st2 hvs
          obtain ⟨rfl, rfl⟩ : (p.name, v0) :: vs = flds ∧ st2 = st' := by simpa using h
          cases f with
          | zero => simp [resolveParamValue] at hv0
          | succ g =>
            simp only [resolveParamValue] at hv0
            split at hv0
            · rename_i heq
              rw [hann] at heq
              exact absurd heq (by simp)
            · rename_i heq
              rw [hann] at heq
              exact absurd heq (by simp)
            · rename_i u' heq
              rw [hann] at heq
              exact absurd heq (by simp)
            · rename_i u' heq
              rw [hann] at heq
              obtain rfl : u = u' := by injection heq
              split at hv0
              · exact absurd (by assumption) hinjd
              · split at hv0
                · rename_i hnone
                  rw [hureg] at hnone
                  exact absurd hnone (by simp)
                · rename_i ureg' hfind
                  rw [hureg] at hfind
                  obtain rfl : ureg = ureg' := by injection hfind
                  split at hv0
                  · rename_i hcond
                    rw [hstrat] at hcond
                    simp at hcond
                  · obtain ⟨x, rfl, hxle, hxlt⟩ :=
                      resolveType_transcient_spec hureg hstrat hinjd hv0
                    have ev : Evolves guard st1 st2 :=
                      (resolve_evolves inj _).2.1 _ _ _ _ _ _ _ hvs
                    exact ⟨x, by simp, hxle, lt_of_lt_of_le hxlt ev.1.1⟩
  | cons q ps1 ih =>
    intro fuel st guard flds st' h
    cases fuel with
    | zero => simp [resolveParams] at h
    | succ f =>
      rw [List.cons_append] at h
      simp only [resolveParams] at h
      split at h
      · exact absurd h (by simp)
      · rename_i v0 st1 hv0
        split at h
        · exact absurd h (by simp)
        · rename_i vs st2 hvs
          obtain ⟨rfl, rfl⟩ : (q.name, v0) :: vs = flds ∧ st2 = st' := by simpa using h
          obtain ⟨x, hidx, hxle, hxlt⟩ := ih _ _ _ _ _ hvs
          have ev0 : Evolves guard st st1 :=
            (resolve_evolves inj f).2.2.1 _ _ _ _ _ _ _ hv0
          exact ⟨x, by simpa using hidx, le_trans ev0.1.1 hxle, hxlt⟩

/-- A cache hit returns the cached instance and leaves the state untouched. -/
theorem resolveType_cache_hit {inj : Injection} {fuel : Nat} {st : InjectionContext}
    {sess : Option Nat} {guard : List Ty} {t : Ty} {reg : TypeRegistration} {i : Nat}
    (hreg : inj.find t.origin = some reg) (hinjd : t.origin ≠ injectionTypeId)
    (hhit : cacheLookup reg.strategy st sess t = .ok (some i)) :
    resolveType inj (fuel + 1) st sess guard t = .ok (.obj i, st) := by
  simp [resolveType, hreg, hhit, hinjd]

/-! ### The claims -/

/-- C1: for every type T registered with the Singleton strategy, a
successful `require` yields an instance that is cached in the root context,
and every subsequent `require` of T on the same container returns that
identical instance with the context unchanged — the instance is built at
most once and reused for all subsequent requests. -/
theorem singleton_require_identical {inj : Injection} {fuel : Nat}
    {st st1 : InjectionContext} {sess : Option Nat} {t : Ty}
    {reg : TypeRegistration} {v : Value}
    (hreg : inj.find t.origin = some reg) (hstrat : reg.strategy = .Singleton)
    (hinjd : t.origin ≠ injectionTypeId)
    (h1 : inj.require fuel st sess t = .ok (v, st1)) :
    (∃ i, v = .obj i ∧ st1.rootGet t = some i) ∧
    ∀ (fuel' : Nat) (sess' : Option Nat),
      inj.require (fuel' + 1) st1 sess' t = .ok (v, st1) := by
  obtain ⟨s, rfl, hroot, -⟩ := resolveType_singleton_spec hreg hstrat hinjd h1
  refine ⟨⟨s, rfl, hroot⟩, fun fuel' sess' => ?_⟩
  have hhit : cacheLookup reg.strategy st1 sess' t = .ok (some s) := by
    rw [hstrat]
    simp [cacheLookup, hroot]
  exact resolveType_cache_hit hreg hinjd hhit

/-- C10: requiring the `Injection` type on any resolver — the root container
(`sess = none`) or any scoped-session resolver — returns that very resolver,
tagged with its own session; distinct resolver tags are distinct values, so
a session resolver is neither a copy nor the root. -/
theorem require_returns_self_resolver {inj : Injection} {fuel : Nat}
    {st : InjectionContext} {t : Ty} (h : t.origin = injectionTypeId) :
    (∀ sess : Option Nat, inj.require (fuel + 1) st sess t = .ok (.resolver sess, st)) ∧
    (∀ s1 s2 : Option Nat, (Value.resolver s1 = Value.resolver s2) ↔ s1 = s2) := by
  constructor
  · intro sess
    rw [Injection.require, resolveType, if_pos h]
  · intro s1 s2
    constructor
    · intro hx
      injection hx
    · intro hx
      rw [hx]

/-- C6: registering a type that is already present in the registry (and not
marked match-all) fails with the type-registered error, and registering a
pre-built instance under any non-Singleton strategy fails with the
instance/strategy mismatch error; in both failure cases the registry is
returned unchanged. -/
theorem add_twice_and_instance_errors {inj : Injection} {c : Nat}
    {reg : TypeRegistration} :
    ((inj.find c).isSome = true → reg.matchAll = false →
      inj.add c reg = (inj, some (.typeRegistered c))) ∧
    ((inj.find c).isSome = false → reg.hasInstance = true →
      reg.strategy ≠ .Singleton →
      inj.add c reg = (inj, some (.instanceNotSingleton c))) := by
  constructor
  · intro h1 h2
    rw [Injection.add, if_pos ⟨h1, h2⟩]
  · intro h1 h2 h3
    rw [Injection.add, if_neg (by simp [h1]), if_pos ⟨h2, h3⟩]

/-- C7: a still-unbound parameter whose hint is nullable, with the inner
type unregistered and no declared default, binds `None` without raising; a
parameter whose hint is a true union of two or more non-null concrete types
raises the union-not-allowed error naming the parameter. -/
theorem nullable_binds_none_and_union_rejected {inj : Injection} {fuel : Nat}
    {st : InjectionContext} {sess : Option Nat} {guard : List Ty}
    {pstrat : InjectionStrategy} {p : Param} :
    (∀ u : Ty, p.annot = .nullable u → u.origin ≠ injectionTypeId →
      inj.find u.origin = none → p.dflt = none →
      resolveParamValue inj (fuel + 1) st sess guard pstrat p = .ok (.vnone, st)) ∧
    (∀ ms : List Ty, p.annot = .union ms → 2 ≤ ms.length →
      resolveParamValue inj (fuel + 1) st sess guard pstrat p =
        .error (.unionNotAllowed p.name)) := by
  constructor
  · intro u hann hinjd hfind hdflt
    simp [resolveParamValue, hann, hinjd, hfind, hdflt]
  · intro ms hann h2
    simp [resolveParamValue, hann]

theorem params_split_at {ps : List Param} {k : Nat} {q : Param}
    (h : ps[k]? = some q) :
    ps = ps.take k ++ q :: ps.drop (k + 1) ∧ (ps.take k).length = k := by
  obtain ⟨hlt, hget⟩ := List.getElem?_eq_some.mp h
  constructor
  · conv_lhs => rw [← List.take_append_drop k ps]
    rw [List.drop_eq_getElem_cons hlt, hget]
  · rw [List.length_take]
    omega

/-- C2: for every type T registered with the Transcient strategy each
resolution builds a fresh instance and never caches it: two consecutive
`require` calls return distinct instances, and two distinct dependents that
each depend on T through a constructor parameter receive distinct T
instances. -/
theorem transcient_require_fresh {inj : Injection} {fuel fuel' : Nat}
    {st st1 st2 : InjectionContext} {sess sess' : Option Nat} {t : Ty}
    {reg : TypeRegistration} {v1 v2 : Value}
    (hreg : inj.find t.origin = some reg) (hstrat : reg.strategy = .Transcient)
    (hinjd : t.origin ≠ injectionTypeId)
    (h1 : inj.require fuel st sess t = .ok (v1, st1))
    (h2 : inj.require fuel' st1 sess' t = .ok (v2, st2)) :
    (∃ x1 x2, v1 = .obj x1 ∧ v2 = .obj x2 ∧ x1 ≠ x2) ∧
    (∀ {D1 D2 : Ty} {reg1 reg2 : TypeRegistration} {k1 k2 : Nat} {q1 q2 : Param}
      {fA fB : Nat} {sessA sessB : Option Nat} {stX stA stB : InjectionContext}
      {i1 i2 : Nat},
      inj.find D1.origin = some reg1 → reg1.strategy = .Singleton →
      D1.origin ≠ injectionTypeId →
      inj.find D2.origin = some reg2 → reg2.strategy = .Singleton →
      D2.origin ≠ injectionTypeId →
      reg1.params[k1]? = some q1 → q1.annot = .concrete t →
      reg2.params[k2]? = some q2 → q2.annot = .concrete t →
      stX.rootGet D1 = none →
      inj.require fA stX sessA D1 = .ok (.obj i1, stA) →
      stA.rootGet D2 = none →
      inj.require fB stA sessB D2 = .ok (.obj i2, stB) →
      ∃ o1 o2 x1 x2, stB.heap[i1]? = some o1 ∧ stB.heap[i2]? = some o2 ∧
        o1.fields[k1]? = some (q1.name, .obj x1) ∧
        o2.fields[k2]? = some (q2.name, .obj x2) ∧ x1 ≠ x2) := by
  constructor
  · obtain ⟨x1, rfl, hx1le, hx1lt⟩ := resolveType_transcient_spec hreg hstrat hinjd h1
    obtain ⟨x2, rfl, hx2le, hx2lt⟩ := resolveType_transcient_spec hreg hstrat hinjd h2
    exact ⟨x1, x2, rfl, rfl, by omega⟩
  · intro D1 D2 reg1 reg2 k1 k2 q1 q2 fA fB sessA sessB stX stA stB i1 i2
    intro hreg1 hstrat1 hinjd1 hreg2 hstrat2 hinjd2 hq1 hann1 hq2 hann2
    intro hrootA hA hrootB hB
    cases fA with
    | zero => simp [Injection.require, resolveType] at hA
    | succ gA =>
      cases fB with
      | zero => simp [Injection.require, resolveType] at hB
      | succ gB =>
        have hmissA : cacheLookup reg1.strategy stX sessA D1 = .ok none := by
          rw [hstrat1]
          simp [cacheLookup, hrootA]
        have hmissB : cacheLookup reg2.strategy stA sessB D2 = .ok none := by
          rw [hstrat2]
          simp [cacheLookup, hrootB]
        obtain ⟨-, flds1, stp1, runs1, st31, hp1, -, hv1, -, hobj1, hlt1, hle1⟩ :=
          resolveType_build_inv hreg1 hinjd1 hmissA hA
        obtain ⟨-, flds2, stp2, runs2, st32, hp2, -, hv2, -, hobj2, hlt2, hle2⟩ :=
          resolveType_build_inv hreg2 hinjd2 hmissB hB
        obtain rfl : i1 = stp1.heap.length := by simpa using hv1
        obtain rfl : i2 = stp2.heap.length := by simpa using hv2
        obtain ⟨hsplit1, hklen1⟩ := params_split_at hq1
        obtain ⟨hsplit2, hklen2⟩ := params_split_at hq2
        rw [hsplit1] at hp1
        rw [hsplit2] at hp2
        obtain ⟨x1, hidx1, hx1ge, hx1lt⟩ :=
          resolveParams_transcient_at hann1 hinjd hreg hstrat _ _ _ _ _ _ hp1
        obtain ⟨x2, hidx2, hx2ge, hx2lt⟩ :=
          resolveParams_transcient_at hann2 hinjd hreg hstrat _ _ _ _ _ _ hp2
        rw [hklen1] at hidx1
        rw [hklen2] at hidx2
        have evB : Evolves ([] : List Ty) stA stB :=
          ((resolve_evolves inj (gB + 1)).1 _ _ _ _ _ _ hB).1
        have hkeep : stB.heap[stp1.heap.length]? = some ⟨D1, flds1, runs1⟩ := by
          rw [evB.1.2.1 _ ?_]
          · exact hobj1
          · exact (List.getElem?_eq_some.mp hobj1).1
        refine ⟨⟨D1, flds1, runs1⟩, ⟨D2, flds2, runs2⟩, x1, x2, hkeep, hobj2,
          hidx1, hidx2, ?_⟩
        have hx1A : x1 < stA.heap.length := lt_trans hx1lt hlt1
        omega

/-- C9: after constructing an instance, the initializer hooks declared on
the type and its ancestor types run exactly once each, base-class hooks
first and most-derived last (the recorded trace equals the lineage's
base-first hook enumeration — so a subclass with no hooks of its own still
runs the inherited base hooks), and each hook is bound exactly its own
declared parameters through the same binding algorithm. -/
theorem init_hooks_base_first {inj : Injection} {f : Nat} {st : InjectionContext}
    {sess : Option Nat} {guard : List Ty} {t : Ty} {reg : TypeRegistration}
    {v : Value} {st' : InjectionContext}
    (hreg : inj.find t.origin = some reg) (hinjd : t.origin ≠ injectionTypeId)
    (hmiss : cacheLookup reg.strategy st sess t = .ok none)
    (h : resolveType inj (f + 1) st sess guard t = .ok (v, st')) :
    ∃ i o, v = .obj i ∧ st'.heap[i]? = some o ∧
      o.hookRuns.map (fun r => (r.1, r.2.1)) =
        (allHooks inj reg.lineage).map (fun x => (x.1, x.2.1)) ∧
      o.hookRuns.map (fun r => r.2.2.map Prod.fst) =
        (allHooks inj reg.lineage).map (fun x => x.2.2.params.map Param.name) := by
  obtain ⟨-, flds, st1, runs, st3, -, hh, rfl, rfl, hobj, -, -⟩ :=
    resolveType_build_inv hreg hinjd hmiss h
  obtain ⟨t1, t2⟩ := runHooks_trace _ hh
  exact ⟨st1.heap.length, ⟨t, flds, runs⟩, rfl, hobj, t1, t2⟩

theorem resolveType_tagged {inj : Injection} {fuel : Nat} {st : InjectionContext}
    {sess : Option Nat} {guard : List Ty} {t : Ty} {v : Value} {st' : InjectionContext}
    (hinv : Inv st) (h : resolveType inj fuel st sess guard t = .ok (v, st')) :
    ∀ i, v = .obj i → ∃ o, st'.heap[i]? = some o ∧ o.ty = t :=
  ((resolve_evolves inj fuel).1 _ _ _ _ _ _ h).2 hinv

/-- C8: resolving a generic registration at a concrete argument tuple —
directly through `require`, or as a dependency parameter — yields an
instance tagged with that concrete argument tuple, retrievable afterwards
through the `GenericMeta` introspection. -/
theorem generic_instances_tagged {inj : Injection} :
    (∀ (fuel : Nat) (st : InjectionContext) (sess : Option Nat) (guard : List Ty)
      (g : Nat) (gargs : List Nat) (v : Value) (st' : InjectionContext), Inv st →
      g ≠ injectionTypeId →
      resolveType inj fuel st sess guard ⟨g, gargs⟩ = .ok (v, st') →
      ∀ i, v = .obj i → genericMeta st' i = some gargs) ∧
    (∀ (fuel : Nat) (st : InjectionContext) (sess : Option Nat) (guard : List Ty)
      (pstrat : InjectionStrategy) (p : Param) (u : Ty) (ureg : TypeRegistration)
      (v : Value) (st' : InjectionContext), Inv st →
      p.annot = .concrete u → u.origin ≠ injectionTypeId →
      inj.find u.origin = some ureg →
      resolveParamValue inj fuel st sess guard pstrat p = .ok (v, st') →
      ∀ i, v = .obj i → genericMeta st' i = some u.args) := by
  constructor
  · intro fuel st sess guard g gargs v st' hinv hg h i hv
    obtain ⟨o, ho, hty⟩ := resolveType_tagged hinv h i hv
    simp [genericMeta, ho, hty]
  · intro fuel st sess guard pstrat p u ureg v st' hinv hann hinjd hureg h i hv
    cases fuel with
    | zero => simp [resolveParamValue] at h
    | succ g =>
      simp only [resolveParamValue] at h
      split at h
      · rename_i heq
        rw [hann] at heq
        exact absurd heq (by simp)
      · rename_i heq
        rw [hann] at heq
        exact absurd heq (by simp)
      · rename_i u' heq
        rw [hann] at heq
        exact absurd heq (by simp)
      · rename_i u' heq
        rw [hann] at heq
        obtain rfl : u = u' := by injection heq
        split at h
        · exact absurd (by assumption) hinjd
        · split at h
          · rename_i hnone
            rw [hureg] at hnone
            exact absurd hnone (by simp)
          · rename_i ureg' hfind
            split at h
            · exact absurd h (by simp)
            · obtain ⟨o, ho, hty⟩ := resolveType_tagged hinv h i hv
              rw [genericMeta, ho]
              simp [hty]

theorem cacheStore_root_some {strat : InjectionStrategy} {st : InjectionContext}
    {sess : Option Nat} {t : Ty} {i : Nat} {u : Ty} {j : Nat}
    (h : st.rootGet u = some j) : (cacheStore strat st sess t i).rootGet u = some j := by
  cases strat with
  | Singleton => exact lookupCache_append_some _ h
  | Transcient => exact h
  | Scoped => cases sess <;> exact h

/-- C3: for every type T registered with the Scoped strategy, two sessions
opened from the same root yield distinct T instances, while repeated
`require` within one session yields the identical instance; moreover a
Singleton dependency of the scoped instances is identical across the two
sessions, and a Transcient dependency differs per resolution. -/
theorem scoped_session_isolation {inj : Injection} {f1 f2 : Nat}
    {st0 st2 st4 stO1 stO2 : InjectionContext} {T : Ty} {reg : TypeRegistration}
    {sid1 sid2 i1 i2 : Nat}
    (hreg : inj.find T.origin = some reg) (hstrat : reg.strategy = .Scoped)
    (hinjd : T.origin ≠ injectionTypeId)
    (hs1 : get_scoped_session st0 = (sid1, stO1))
    (h1 : inj.require f1 stO1 (some sid1) T = .ok (.obj i1, st2))
    (hs2 : get_scoped_session st2 = (sid2, stO2))
    (h2 : inj.require f2 stO2 (some sid2) T = .ok (.obj i2, st4)) :
    i1 ≠ i2 ∧
    (∀ f' : Nat, inj.require (f' + 1) st4 (some sid1) T = .ok (.obj i1, st4)) ∧
    (∀ (kS : Nat) (pS : Param) (S : Ty) (sreg : TypeRegistration),
      reg.params[kS]? = some pS → pS.annot = .concrete S →
      S.origin ≠ injectionTypeId → inj.find S.origin = some sreg →
      sreg.strategy = .Singleton →
      ∃ s o1 o2, st4.heap[i1]? = some o1 ∧ st4.heap[i2]? = some o2 ∧
        o1.fields[kS]? = some (pS.name, .obj s) ∧
        o2.fields[kS]? = some (pS.name, .obj s)) ∧
    (∀ (kX : Nat) (pX : Param) (X : Ty) (xreg : TypeRegistration),
      reg.params[kX]? = some pX → pX.annot = .concrete X →
      X.origin ≠ injectionTypeId → inj.find X.origin = some xreg →
      xreg.strategy = .Transcient →
      ∃ x1 x2 o1 o2, st4.heap[i1]? = some o1 ∧ st4.heap[i2]? = some o2 ∧
        o1.fields[kX]? = some (pX.name, .obj x1) ∧
        o2.fields[kX]? = some (pX.name, .obj x2) ∧ x1 ≠ x2) := by
  obtain ⟨rfl, rfl⟩ : sid1 = (get_scoped_session st0).1 ∧
      stO1 = (get_scoped_session st0).2 := by
    rw [hs1]
    exact ⟨rfl, rfl⟩
  obtain ⟨rfl, rfl⟩ : sid2 = (get_scoped_session st2).1 ∧
      stO2 = (get_scoped_session st2).2 := by
    rw [hs2]
    exact ⟨rfl, rfl⟩
  obtain ⟨ho1heap, ho1root, ho1keep, ho1sid, ho1len, ho1fresh⟩ := open_session_spec st0
  obtain ⟨ho2heap, ho2root, ho2keep, ho2sid, ho2len, ho2fresh⟩ := open_session_spec st2
  rw [ho1sid] at h1 ⊢
  rw [ho2sid] at h2
  have hfresh1 : (get_scoped_session st0).2.sessGet st0.sessions.length T = none :=
    ho1fresh T
  have hfresh2 : (get_scoped_session st2).2.sessGet st2.sessions.length T = none :=
    ho2fresh T
  have hlt1 : st0.sessions.length < (get_scoped_session st0).2.sessions.length := by
    omega
  have hlt2 : st2.sessions.length < (get_scoped_session st2).2.sessions.length := by
    omega
  cases f1 with
  | zero => simp [Injection.require, resolveType] at h1
  | succ g1 =>
  cases f2 with
  | zero => simp [Injection.require, resolveType] at h2
  | succ g2 =>
  have hmiss1 : cacheLookup reg.strategy (get_scoped_session st0).2
      (some st0.sessions.length) T = .ok none := by
    rw [hstrat]
    simp [cacheLookup, hfresh1]
  have hmiss2 : cacheLookup reg.strategy (get_scoped_session st2).2
      (some st2.sessions.length) T = .ok none := by
    rw [hstrat]
    simp [cacheLookup, hfresh2]
  obtain ⟨hg1, flds1, stp1, runs1, st31, hp1, hh1, hv1, hst2, hobj1, hltA, hleA⟩ :=
    resolveType_build_inv hreg hinjd hmiss1 h1
  obtain ⟨hg2, flds2, stp2, runs2, st32, hp2, hh2, hv2, hst4, hobj2, hltB, hleB⟩ :=
    resolveType_build_inv hreg hinjd hmiss2 h2
  obtain rfl : i1 = stp1.heap.length := by simpa using hv1
  obtain rfl : i2 = stp2.heap.length := by simpa using hv2
  obtain ⟨x1s, hx1v, -, -, hsess1⟩ :=
    resolveType_scoped_spec hreg hstrat hinjd hfresh1 hlt1 h1
  obtain rfl : x1s = stp1.heap.length := by
    have := hx1v
    simp at this
    omega
  have hi1lt2 : stp1.heap.length < st2.heap.length := hltA
  have hi2ge : st2.heap.length ≤ stp2.heap.length := by
    have := hleB
    rw [ho2heap] at this
    exact this
  have hne12 : stp1.heap.length ≠ stp2.heap.length := by omega
  have hsessO2 : (get_scoped_session st2).2.sessGet st0.sessions.length T =
      some stp1.heap.length := ho2keep _ _ _ hsess1
  have evB : Evolves ([] : List Ty) (get_scoped_session st2).2 st4 :=
    ((resolve_evolves inj (g2 + 1)).1 _ _ _ _ _ _ h2).1
  have hsess4 : st4.sessGet st0.sessions.length T = some stp1.heap.length :=
    evB.1.2.2.2.1 _ _ _ hsessO2
  have hkeep1 : st4.heap[stp1.heap.length]? = some ⟨T, flds1, runs1⟩ := by
    have hlt : stp1.heap.length < (get_scoped_session st2).2.heap.length := by
      rw [ho2heap]
      exact hi1lt2
    rw [evB.1.2.1 _ hlt, ho2heap]
    exact hobj1
  refine ⟨hne12, ?_, ?_, ?_⟩
  · intro f'
    have hhit : cacheLookup reg.strategy st4 (some st0.sessions.length) T =
        .ok (some stp1.heap.length) := by
      rw [hstrat]
      simp [cacheLookup, hsess4]
    exact resolveType_cache_hit hreg hinjd hhit
  · intro kS pS S sreg hk hann hSinj hSreg hSstrat
    obtain ⟨hsplit, hklen⟩ := params_split_at hk
    have hp1' := hp1
    have hp2' := hp2
    rw [hsplit] at hp1' hp2'
    obtain ⟨s, hidx1, hroot1, -⟩ :=
      resolveParams_singleton_at hann hSinj hSreg hSstrat _ _ _ _ _ _ hp1'
    rw [hklen] at hidx1
    have hroot2 : st2.rootGet S = some s := by
      rw [hst2]
      show st31.rootGet S = some s
      have ev31 : Evolves (T :: []) _ st31 :=
        (resolve_evolves inj g1).2.2.2 _ _ _ _ _ _ _ hh1
      exact ev31.1.2.2.1 _ _ (cacheStore_root_some hroot1)
    have hrootO2 : (get_scoped_session st2).2.rootGet S = some s := by
      show lookupCache (get_scoped_session st2).2.root S = some s
      rw [ho2root]
      exact hroot2
    obtain ⟨s2, hidx2, -, hclause2⟩ :=
      resolveParams_singleton_at hann hSinj hSreg hSstrat _ _ _ _ _ _ hp2'
    have hs2eq : s2 = s := hclause2 s hrootO2
    rw [hklen, hs2eq] at hidx2
    exact ⟨s, ⟨T, flds1, runs1⟩, ⟨T, flds2, runs2⟩, hkeep1, hobj2, hidx1, hidx2⟩
  · intro kX pX X xreg hk hann hXinj hXreg hXstrat
    obtain ⟨hsplit, hklen⟩ := params_split_at hk
    have hp1' := hp1
    have hp2' := hp2
    rw [hsplit] at hp1' hp2'
    obtain ⟨x1, hidx1, hx1ge, hx1lt⟩ :=
      resolveParams_transcient_at hann hXinj hXreg hXstrat _ _ _ _ _ _ hp1'
    obtain ⟨x2, hidx2, hx2ge, hx2lt⟩ :=
      resolveParams_transcient_at hann hXinj hXreg hXstrat _ _ _ _ _ _ hp2'
    rw [hklen] at hidx1 hidx2
    have hx1lt2 : x1 < st2.heap.length := by omega
    have hx2ge2 : st2.heap.length ≤ x2 := by
      have h2' : (get_scoped_session st2).2.heap.length ≤ x2 := hx2ge
      rw [ho2heap] at h2'
      exact h2'
    exact ⟨x1, x2, ⟨T, flds1, runs1⟩, ⟨T, flds2, runs2⟩, hkeep1, hobj2, hidx1, hidx2,
      by omega⟩

/-! ### Error propagation lemmas -/

theorem resolveType_scoped_no_session {inj : Injection} {fuel : Nat}
    {st : InjectionContext} {guard : List Ty} {t : Ty} {reg : TypeRegistration}
    (hreg : inj.find t.origin = some reg) (hstrat : reg.strategy = .Scoped)
    (hinjd : t.origin ≠ injectionTypeId) :
    resolveType inj (fuel + 1) st none guard t = .error (.scopedOutsideSession t) := by
  have hmiss : cacheLookup reg.strategy st none t = .error (.scopedOutsideSession t) := by
    rw [hstrat]
    rfl
  simp [resolveType, hreg, hmiss, hinjd]

theorem cacheLookup_nonscoped_none {strat : InjectionStrategy} {st : InjectionContext}
    {sess : Option Nat} {t : Ty} (hns : strat ≠ .Scoped)
    (hroot : strat = .Singleton → st.rootGet t = none) :
    cacheLookup strat st sess t = .ok none := by
  cases strat with
  | Singleton => simp [cacheLookup, hroot rfl]
  | Transcient => rfl
  | Scoped => exact absurd rfl hns

theorem resolveType_guard_err {inj : Injection} {f : Nat} {st : InjectionContext}
    {sess : Option Nat} {guard : List Ty} {t : Ty} {reg : TypeRegistration}
    (hreg : inj.find t.origin = some reg) (hinjd : t.origin ≠ injectionTypeId)
    (hmiss : cacheLookup reg.strategy st sess t = .ok none) (hg : t ∈ guard) :
    resolveType inj (f + 1) st sess guard t = .error (.circularDependency t) := by
  simp [resolveType, hreg, hmiss, hinjd, hg]

theorem resolveType_params_error {inj : Injection} {f : Nat} {st : InjectionContext}
    {sess : Option Nat} {guard : List Ty} {t : Ty} {reg : TypeRegistration}
    {e : InjectionError}
    (hreg : inj.find t.origin = some reg) (hinjd : t.origin ≠ injectionTypeId)
    (hmiss : cacheLookup reg.strategy st sess t = .ok none) (hguard : t ∉ guard)
    (hp : resolveParams inj f st sess (t :: guard) reg.strategy reg.params = .error e) :
    resolveType inj (f + 1) st sess guard t = .error e := by
  simp [resolveType, hreg, hmiss, hinjd, hguard, hp]

theorem resolveType_build_ok {inj : Injection} {f : Nat} {st st1 st3 : InjectionContext}
    {sess : Option Nat} {guard : List Ty} {t : Ty} {reg : TypeRegistration}
    {flds : List (String × Value)} {runs : List (Nat × Nat × List (String × Value))}
    (hreg : inj.find t.origin = some reg) (hinjd : t.origin ≠ injectionTypeId)
    (hmiss : cacheLookup reg.strategy st sess t = .ok none) (hguard : t ∉ guard)
    (hp : resolveParams inj f st sess (t :: guard) reg.strategy reg.params = .ok (flds, st1))
    (hh : runHooks inj f (cacheStore reg.strategy (addObject st1 t flds) sess t
      st1.heap.length) sess (t :: guard) reg.strategy (allHooks inj reg.lineage) =
      .ok (runs, st3)) :
    resolveType inj (f + 1) st sess guard t =
      .ok (.obj st1.heap.length, setObj st3 st1.heap.length ⟨t, flds, runs⟩) := by
  simp [resolveType, hreg, hmiss, hinjd, hguard, hp, hh]

theorem resolveParams_head_error {inj : Injection} {f : Nat} {st : InjectionContext}
    {sess : Option Nat} {guard : List Ty} {pstrat : InjectionStrategy} {p : Param}
    {ps : List Param} {e : InjectionError}
    (hv : resolveParamValue inj f st sess guard pstrat p = .error e) :
    resolveParams inj (f + 1) st sess guard pstrat (p :: ps) = .error e := by
  simp [resolveParams, hv]

theorem resolveParams_nil {inj : Injection} {g : Nat} {st : InjectionContext}
    {sess : Option Nat} {guard : List Ty} {pstrat : InjectionStrategy} :
    resolveParams inj (g + 1) st sess guard pstrat [] = .ok ([], st) := by
  simp [resolveParams]

theorem runHooks_nil {inj : Injection} {g : Nat} {st : InjectionContext}
    {sess : Option Nat} {guard : List Ty} {pstrat : InjectionStrategy} :
    runHooks inj (g + 1) st sess guard pstrat [] = .ok ([], st) := by
  simp [runHooks]

theorem resolveParamValue_concrete_scoped_err {inj : Injection} {f : Nat}
    {st : InjectionContext} {sess : Option Nat} {guard : List Ty}
    {pstrat : InjectionStrategy} {p : Param} {u : Ty} {ureg : TypeRegistration}
    (hann : p.annot = .concrete u) (hinjd : u.origin ≠ injectionTypeId)
    (hureg : inj.find u.origin = some ureg) (hscoped : ureg.strategy = .Scoped)
    (hpstrat : pstrat ≠ .Scoped) :
    resolveParamValue inj (f + 1) st sess guard pstrat p =
      .error (.scopedInNonScoped p.name) := by
  simp [resolveParamValue, hann, hinjd, hureg, hscoped, hpstrat]

theorem resolveParamValue_concrete_propagate {inj : Injection} {f : Nat}
    {st : InjectionContext} {sess : Option Nat} {guard : List Ty}
    {pstrat : InjectionStrategy} {p : Param} {u : Ty} {ureg : TypeRegistration}
    {e : InjectionError}
    (hann : p.annot = .concrete u) (hinjd : u.origin ≠ injectionTypeId)
    (hureg : inj.find u.origin = some ureg) (hns : ureg.strategy ≠ .Scoped)
    (hrec : resolveType inj f st sess guard u = .error e) :
    resolveParamValue inj (f + 1) st sess guard pstrat p = .error e := by
  have hcond : ¬(ureg.strategy = .Scoped ∧ pstrat ≠ .Scoped) := by
    intro hx
    exact hns hx.1
  simp [resolveParamValue, hann, hinjd, hureg, hcond, hrec]

/-- Modelled from the spec: a dependency chain rooted in a non-scoped
registration (Singleton or Transcient) that reaches, through first
constructor parameters, a parameter whose type is registered Scoped — the
lifetime-safety situation the scoped-in-non-scoped error guards against.
Each node is required to be buildable: not in the current guard, and not
already cached when Singleton. -/
inductive ScopedChain (inj : Injection) (st : InjectionContext) :
    Ty → List Ty → String → Prop
  | base {t : Ty} {guard : List Ty} {reg : TypeRegistration} {p : Param}
      {ps : List Param} {u : Ty} {ureg : TypeRegistration} :
      inj.find t.origin = some reg → reg.strategy ≠ .Scoped →
      t.origin ≠ injectionTypeId → t ∉ guard →
      (reg.strategy = .Singleton → st.rootGet t = none) →
      reg.params = p :: ps → p.annot = .concrete u → u.origin ≠ injectionTypeId →
      inj.find u.origin = some ureg → ureg.strategy = .Scoped →
      ScopedChain inj st t guard p.name
  | step {t : Ty} {guard : List Ty} {reg : TypeRegistration} {p : Param}
      {ps : List Param} {u : Ty} {pname : String} :
      inj.find t.origin = some reg → reg.strategy ≠ .Scoped →
      t.origin ≠ injectionTypeId → t ∉ guard →
      (reg.strategy = .Singleton → st.rootGet t = none) →
      reg.params = p :: ps → p.annot = .concrete u →
      ScopedChain inj st u (t :: guard) pname →
      ScopedChain inj st t guard pname

theorem ScopedChain.head_facts {inj : Injection} {st : InjectionContext} {t : Ty}
    {guard : List Ty} {pname : String} (h : ScopedChain inj st t guard pname) :
    ∃ reg, inj.find t.origin = some reg ∧ reg.strategy ≠ .Scoped ∧
      t.origin ≠ injectionTypeId := by
  cases h with
  | base hf hns hinjd _ _ _ _ _ _ _ => exact ⟨_, hf, hns, hinjd⟩
  | step hf hns hinjd _ _ _ _ _ => exact ⟨_, hf, hns, hinjd⟩

/-- Any scoped-reaching chain makes the root resolution fail with the
scoped-in-non-scoped error naming the offending parameter, given enough
fuel. -/
theorem scopedChain_err {inj : Injection} {st : InjectionContext} :
    ∀ {t : Ty} {guard : List Ty} {pname : String},
    ScopedChain inj st t guard pname → ∀ sess : Option Nat,
    ∃ N : Nat, ∀ f : Nat,
      resolveType inj (N + f) st sess guard t = .error (.scopedInNonScoped pname) := by
  intro t guard pname h
  induction h with
  | @base t1 guard1 reg1 p1 ps1 u1 ureg2 hf hns hinjd hguard hroot hps hann huinj huf hus =>
    intro sess
    refine ⟨3, fun f => ?_⟩
    have hv : resolveParamValue inj (f + 1) st sess (t1 :: guard1) reg1.strategy p1 =
        .error (.scopedInNonScoped p1.name) :=
      resolveParamValue_concrete_scoped_err hann huinj huf hus hns
    have hp : resolveParams inj ((f + 1) + 1) st sess (t1 :: guard1) reg1.strategy
        (p1 :: ps1) = .error (.scopedInNonScoped p1.name) :=
      resolveParams_head_error hv
    have hmain := resolveType_params_error hf hinjd
      (cacheLookup_nonscoped_none hns hroot) hguard (by rw [hps]; exact hp)
    have he : 3 + f = ((f + 1) + 1) + 1 := by omega
    rw [he]
    exact hmain
  | @step t1 guard1 reg1 p1 ps1 u1 pname1 hf hns hinjd hguard hroot hps hann hchain ih =>
    intro sess
    obtain ⟨N, hN⟩ := ih sess
    obtain ⟨ureg1, huf, huns, huinj⟩ := hchain.head_facts
    refine ⟨N + 3, fun f => ?_⟩
    have hv : resolveParamValue inj ((N + f) + 1) st sess (t1 :: guard1)
        reg1.strategy p1 = .error (.scopedInNonScoped pname1) :=
      resolveParamValue_concrete_propagate hann huinj huf huns (hN f)
    have hp : resolveParams inj (((N + f) + 1) + 1) st sess (t1 :: guard1)
        reg1.strategy (p1 :: ps1) = .error (.scopedInNonScoped pname1) :=
      resolveParams_head_error hv
    have hmain := resolveType_params_error hf hinjd
      (cacheLookup_nonscoped_none hns hroot) hguard (by rw [hps]; exact hp)
    have he : N + 3 + f = (((N + f) + 1) + 1) + 1 := by omega
    rw [he]
    exact hmain

/-- C4: resolving a Scoped-strategy type directly with no open session
raises the scoped-outside-session error; and a resolution whose root is a
non-scoped registration (Singleton or Transcient) that transitively — along
any first-parameter dependency chain — requires a Scoped registration raises
the scoped-in-non-scoped error naming the offending parameter. -/
theorem scoped_lifetime_errors {inj : Injection} {st : InjectionContext} :
    (∀ (fuel : Nat) (guard : List Ty) (t : Ty) (reg : TypeRegistration),
      inj.find t.origin = some reg → reg.strategy = .Scoped →
      t.origin ≠ injectionTypeId →
      resolveType inj (fuel + 1) st none guard t = .error (.scopedOutsideSession t)) ∧
    (∀ (t : Ty) (guard : List Ty) (pname : String),
      ScopedChain inj st t guard pname → ∀ sess : Option Nat, ∃ N : Nat, ∀ f : Nat,
        resolveType inj (N + f) st sess guard t = .error (.scopedInNonScoped pname)) :=
  ⟨fun _ _ _ _ hreg hstrat hinjd => resolveType_scoped_no_session hreg hstrat hinjd,
    fun _ _ _ h sess => scopedChain_err h sess⟩

/-- C5: a self-referential registration, or a pair of mutually-dependent
registrations (A needs B through its first parameter and B needs A), makes
`require` fail with the circular-dependency error; and since the guard is
threaded per call — pushed on entry and popped on both success and failure,
never persisting — a subsequent unrelated resolution on the very same
container state succeeds. -/
theorem circular_detected_guard_clean {inj : Injection} {st : InjectionContext}
    {A B : Ty} {regA regB : TypeRegistration} {pA pB : Param}
    {psA psB : List Param} {sess : Option Nat}
    (hA : inj.find A.origin = some regA) (hAinj : A.origin ≠ injectionTypeId)
    (hAns : regA.strategy ≠ .Scoped)
    (hAroot : regA.strategy = .Singleton → st.rootGet A = none)
    (hAps : regA.params = pA :: psA) (hAann : pA.annot = .concrete B)
    (hB : inj.find B.origin = some regB) (hBinj : B.origin ≠ injectionTypeId)
    (hBns : regB.strategy ≠ .Scoped)
    (hBroot : regB.strategy = .Singleton → st.rootGet B = none)
    (hBps : regB.params = pB :: psB) (hBann : pB.annot = .concrete A) :
    (∀ f : Nat, inj.require (f + 7) st sess A = .error (.circularDependency A)) ∧
    (∀ (C : Ty) (regC : TypeRegistration) (f : Nat) (sess' : Option Nat),
      inj.find C.origin = some regC → C.origin ≠ injectionTypeId →
      regC.strategy = .Singleton → regC.params = [] →
      allHooks inj regC.lineage = [] →
      ∃ r, inj.require (f + 3) st sess' C = .ok r) := by
  constructor
  · intro f
    have hAmiss : cacheLookup regA.strategy st sess A = .ok none :=
      cacheLookup_nonscoped_none hAns hAroot
    have hrecA : resolveType inj (f + 1) st sess [B, A] A =
        .error (.circularDependency A) :=
      resolveType_guard_err hA hAinj hAmiss (by simp)
    by_cases hBA : B = A
    · subst hBA
      have hrec : resolveType inj (f + 4) st sess [B] B =
          .error (.circularDependency B) :=
        resolveType_guard_err hA hAinj hAmiss (by simp)
      have hv : resolveParamValue inj (f + 5) st sess [B] regA.strategy pA =
          .error (.circularDependency B) :=
        resolveParamValue_concrete_propagate hAann hAinj hA hAns hrec
      have hp : resolveParams inj (f + 6) st sess [B] regA.strategy regA.params =
          .error (.circularDependency B) := by
        rw [hAps]
        exact resolveParams_head_error hv
      exact resolveType_params_error hA hAinj hAmiss (by simp) hp
    · have hBmiss : cacheLookup regB.strategy st sess B = .ok none :=
        cacheLookup_nonscoped_none hBns hBroot
      have hvB : resolveParamValue inj (f + 2) st sess [B, A] regB.strategy pB =
          .error (.circularDependency A) :=
        resolveParamValue_concrete_propagate hBann hAinj hA hAns hrecA
      have hpB : resolveParams inj (f + 3) st sess [B, A] regB.strategy regB.params =
          .error (.circularDependency A) := by
        rw [hBps]
        exact resolveParams_head_error hvB
      have hrecB : resolveType inj (f + 4) st sess [A] B =
          .error (.circularDependency A) :=
        resolveType_params_error hB hBinj hBmiss (by simp [hBA]) hpB
      have hvA : resolveParamValue inj (f + 5) st sess [A] regA.strategy pA =
          .error (.circularDependency A) :=
        resolveParamValue_concrete_propagate hAann hBinj hB hBns hrecB
      have hpA : resolveParams inj (f + 6) st sess [A] regA.strategy regA.params =
          .error (.circularDependency A) := by
        rw [hAps]
        exact resolveParams_head_error hvA
      exact resolveType_params_error hA hAinj hAmiss (by simp) hpA
  · intro C regC f sess' hC hCinj hCstrat hCps hChooks
    cases hroot : st.rootGet C with
    | some i =>
      have hhit : cacheLookup regC.strategy st sess' C = .ok (some i) := by
        rw [hCstrat]
        simp [cacheLookup, hroot]
      exact ⟨_, resolveType_cache_hit hC hCinj hhit⟩
    | none =>
      have hmiss : cacheLookup regC.strategy st sess' C = .ok none := by
        rw [hCstrat]
        simp [cacheLookup, hroot]
      refine ⟨(.obj st.heap.length, setObj (cacheStore regC.strategy
          (addObject st C []) sess' C st.heap.length) st.heap.length ⟨C, [], []⟩),
        resolveType_build_ok hC hCinj hmiss (by simp) ?_ ?_⟩
      · rw [hCps]
        exact resolveParams_nil
      · rw [hChooks]
        exact runHooks_nil

/-! ### A concrete registry exercising every part of the system -/

def tyB : Ty := ⟨1, []⟩
def tyX : Ty := ⟨2, []⟩
def tyT : Ty := ⟨3, []⟩
def tyD : Ty := ⟨4, []⟩
def tyE : Ty := ⟨5, []⟩
def tySC : Ty := ⟨6, []⟩
def tyP : Ty := ⟨7, []⟩
def tyQ : Ty := ⟨8, []⟩
def tyMA : Ty := ⟨9, []⟩
def tyMB : Ty := ⟨10, []⟩
def tyH : Ty := ⟨13, []⟩

def wRegB : TypeRegistration := ⟨.Singleton, [], [1], false, false⟩
def wRegX : TypeRegistration := ⟨.Transcient, [], [2], false, false⟩
def wRegT : TypeRegistration :=
  ⟨.Scoped, [⟨"c2", .concrete tyB, none⟩, ⟨"c1", .concrete tyX, none⟩], [3], false, false⟩
def wRegD : TypeRegistration := ⟨.Singleton, [⟨"x", .concrete tyX, none⟩], [4], false, false⟩
def wRegE : TypeRegistration := ⟨.Singleton, [⟨"x", .concrete tyX, none⟩], [5], false, false⟩
def wRegSC : TypeRegistration := ⟨.Scoped, [], [6], false, false⟩
def wRegP : TypeRegistration := ⟨.Singleton, [⟨"sc", .concrete tySC, none⟩], [7], false, false⟩
def wRegQ : TypeRegistration := ⟨.Transcient, [⟨"p", .concrete tyP, none⟩], [8], false, false⟩
def wRegMA : TypeRegistration := ⟨.Singleton, [⟨"b", .concrete tyMB, none⟩], [9], false, false⟩
def wRegMB : TypeRegistration := ⟨.Singleton, [⟨"a", .concrete tyMA, none⟩], [10], false, false⟩
def wRegG : TypeRegistration := ⟨.Singleton, [], [11], false, false⟩
def wRegH : TypeRegistration := ⟨.Singleton, [], [14, 13], false, false⟩

def wHookBase : Hook := ⟨[⟨"b", .concrete tyB, none⟩]⟩
def wHookChild : Hook := ⟨[⟨"extra", .nullable ⟨99, []⟩, none⟩]⟩

def wInj : Injection :=
  { regs := [(1, wRegB), (2, wRegX), (3, wRegT), (4, wRegD), (5, wRegE), (6, wRegSC),
      (7, wRegP), (8, wRegQ), (9, wRegMA), (10, wRegMB), (11, wRegG), (13, wRegH)],
    hooks := [(14, [wHookBase]), (13, [wHookChild])] }

def wSt : InjectionContext := ⟨[], [], []⟩

def wStB : InjectionContext := ⟨[⟨tyB, [], []⟩], [(tyB, 0)], []⟩

def wStX1 : InjectionContext := ⟨[⟨tyX, [], []⟩], [], []⟩

def wStX2 : InjectionContext := ⟨[⟨tyX, [], []⟩, ⟨tyX, [], []⟩], [], []⟩

def wStD : InjectionContext :=
  ⟨[⟨tyX, [], []⟩, ⟨tyD, [("x", .obj 0)], []⟩], [(tyD, 1)], []⟩

def wStDE : InjectionContext :=
  ⟨[⟨tyX, [], []⟩, ⟨tyD, [("x", .obj 0)], []⟩, ⟨tyX, [], []⟩, ⟨tyE, [("x", .obj 2)], []⟩],
   [(tyD, 1), (tyE, 3)], []⟩

def wSt2 : InjectionContext :=
  ⟨[⟨tyB, [], []⟩, ⟨tyX, [], []⟩, ⟨tyT, [("c2", .obj 0), ("c1", .obj 1)], []⟩],
   [(tyB, 0)], [[(tyT, 2)]]⟩

def wSt2O : InjectionContext :=
  ⟨[⟨tyB, [], []⟩, ⟨tyX, [], []⟩, ⟨tyT, [("c2", .obj 0), ("c1", .obj 1)], []⟩],
   [(tyB, 0)], [[(tyT, 2)], []]⟩

def wSt4 : InjectionContext :=
  ⟨[⟨tyB, [], []⟩, ⟨tyX, [], []⟩, ⟨tyT, [("c2", .obj 0), ("c1", .obj 1)], []⟩,
    ⟨tyX, [], []⟩, ⟨tyT, [("c2", .obj 0), ("c1", .obj 3)], []⟩],
   [(tyB, 0)], [[(tyT, 2)], [(tyT, 4)]]⟩

def wStG : InjectionContext :=
  ⟨[⟨⟨11, [12]⟩, [], []⟩], [(⟨11, [12]⟩, 0)], []⟩

def wStG2 : InjectionContext :=
  ⟨[⟨⟨11, [13]⟩, [], []⟩], [(⟨11, [13]⟩, 0)], []⟩

def wStH : InjectionContext :=
  ⟨[⟨tyH, [], [(14, 0, [("b", .obj 1)]), (13, 0, [("extra", .vnone)])]⟩, ⟨tyB, [], []⟩],
   [(tyH, 0), (tyB, 1)], []⟩

/-! ### Witnesses: the claim theorems applied at the concrete registry -/

/-- Witness for C1: the Singleton class `tyB`. -/
theorem singleton_require_identical_w :
    (∃ i, Value.obj 0 = Value.obj i ∧ wStB.rootGet tyB = some i) ∧
    ∀ (fuel' : Nat) (sess' : Option Nat),
      wInj.require (fuel' + 1) wStB sess' tyB = .ok (.obj 0, wStB) :=
  singleton_require_identical (show wInj.find tyB.origin = some wRegB from rfl) rfl
    (by decide) (show wInj.require 5 wSt none tyB = .ok (.obj 0, wStB) from rfl)

/-- Witness for C2: the Transcient class `tyX`, required twice and as the
dependency of the two Singleton dependents `tyD` and `tyE`. -/
theorem transcient_require_fresh_w :
    (∃ x1 x2, Value.obj 0 = Value.obj x1 ∧ Value.obj 1 = Value.obj x2 ∧ x1 ≠ x2) ∧
    (∃ o1 o2 x1 x2, wStDE.heap[1]? = some o1 ∧ wStDE.heap[3]? = some o2 ∧
      o1.fields[0]? = some ("x", Value.obj x1) ∧
      o2.fields[0]? = some ("x", Value.obj x2) ∧ x1 ≠ x2) := by
  have h := transcient_require_fresh
    (show wInj.find tyX.origin = some wRegX from rfl) rfl (by decide)
    (show wInj.require 5 wSt none tyX = .ok (.obj 0, wStX1) from rfl)
    (show wInj.require 5 wStX1 none tyX = .ok (.obj 1, wStX2) from rfl)
  refine ⟨h.1, ?_⟩
  exact h.2 (show wInj.find tyD.origin = some wRegD from rfl) rfl (by decide)
    (show wInj.find tyE.origin = some wRegE from rfl) rfl (by decide)
    (show wRegD.params[0]? = some ⟨"x", .concrete tyX, none⟩ from rfl) rfl
    (show wRegE.params[0]? = some ⟨"x", .concrete tyX, none⟩ from rfl) rfl
    (show wSt.rootGet tyD = none from rfl)
    (show wInj.require 5 wSt none tyD = .ok (.obj 1, wStD) from rfl)
    (show wStD.rootGet tyE = none from rfl)
    (show wInj.require 5 wStD none tyE = .ok (.obj 3, wStDE) from rfl)

/-- Witness for C3: the Scoped class `tyT` (depending on Singleton `tyB` and
Transcient `tyX`) resolved in two sessions opened from the same root. -/
theorem scoped_session_isolation_w :
    (2 : Nat) ≠ 4 ∧
    wInj.require (0 + 1) wSt4 (some 0) tyT = .ok (.obj 2, wSt4) ∧
    (∃ s o1 o2, wSt4.heap[2]? = some o1 ∧ wSt4.heap[4]? = some o2 ∧
      o1.fields[0]? = some ("c2", Value.obj s) ∧
      o2.fields[0]? = some ("c2", Value.obj s)) ∧
    (∃ x1 x2 o1 o2, wSt4.heap[2]? = some o1 ∧ wSt4.heap[4]? = some o2 ∧
      o1.fields[1]? = some ("c1", Value.obj x1) ∧
      o2.fields[1]? = some ("c1", Value.obj x2) ∧ x1 ≠ x2) := by
  have h := scoped_session_isolation
    (show wInj.find tyT.origin = some wRegT from rfl) rfl (by decide)
    (show get_scoped_session wSt = (0, ⟨[], [], [[]]⟩) from rfl)
    (show wInj.require 9 ⟨[], [], [[]]⟩ (some 0) tyT = .ok (.obj 2, wSt2) from rfl)
    (show get_scoped_session wSt2 = (1, wSt2O) from rfl)
    (show wInj.require 9 wSt2O (some 1) tyT = .ok (.obj 4, wSt4) from rfl)
  exact ⟨h.1, h.2.1 0,
    h.2.2.1 0 ⟨"c2", .concrete tyB, none⟩ tyB wRegB rfl rfl (by decide)
      (show wInj.find tyB.origin = some wRegB from rfl) rfl,
    h.2.2.2 1 ⟨"c1", .concrete tyX, none⟩ tyX wRegX rfl rfl (by decide)
      (show wInj.find tyX.origin = some wRegX from rfl) rfl⟩

/-- Witness for C4: the Scoped class `tySC` required outside any session,
and the chain Transcient `tyQ` → Singleton `tyP` → Scoped `tySC`. -/
theorem scoped_lifetime_errors_w :
    resolveType wInj (0 + 1) wSt none [] tySC = .error (.scopedOutsideSession tySC) ∧
    ∃ N : Nat, ∀ f : Nat,
      resolveType wInj (N + f) wSt none [] tyQ = .error (.scopedInNonScoped "sc") := by
  constructor
  · exact (scoped_lifetime_errors).1 0 [] tySC wRegSC
      (show wInj.find tySC.origin = some wRegSC from rfl) rfl (by decide)
  · have hbase : ScopedChain wInj wSt tyP [tyQ] "sc" :=
      @ScopedChain.base wInj wSt tyP [tyQ] wRegP ⟨"sc", .concrete tySC, none⟩ []
        tySC wRegSC rfl (by decide) (by decide) (by decide) (by decide) rfl rfl
        (by decide) rfl rfl
    have hchain : ScopedChain wInj wSt tyQ [] "sc" :=
      @ScopedChain.step wInj wSt tyQ [] wRegQ ⟨"p", .concrete tyP, none⟩ [] tyP "sc"
        rfl (by decide) (by decide) (by decide) (by decide) rfl rfl hbase
    exact (scoped_lifetime_errors).2 tyQ [] "sc" hchain none

/-- Witness for C5: the mutually-dependent Singletons `tyMA` and `tyMB`, and
the unrelated Singleton `tyB` still resolvable from the same state. -/
theorem circular_detected_guard_clean_w :
    wInj.require (0 + 7) wSt none tyMA = .error (.circularDependency tyMA) ∧
    ∃ r, wInj.require (0 + 3) wSt none tyB = .ok r := by
  have h := @circular_detected_guard_clean wInj wSt tyMA tyMB wRegMA wRegMB
    ⟨"b", .concrete tyMB, none⟩ ⟨"a", .concrete tyMA, none⟩ [] [] none
    rfl (by decide) (by decide) (by decide) rfl rfl
    rfl (by decide) (by decide) (by decide) rfl rfl
  exact ⟨h.1 0, h.2 tyB wRegB 0 none (show wInj.find tyB.origin = some wRegB from rfl)
    (by decide) rfl rfl rfl⟩

/-- Witness for C6: re-registering class 1, and registering class 99 with a
pre-built instance under the Transcient strategy. -/
theorem add_twice_and_instance_errors_w :
    wInj.add 1 wRegB = (wInj, some (.typeRegistered 1)) ∧
    wInj.add 99 ⟨.Transcient, [], [], true, false⟩ =
      (wInj, some (.instanceNotSingleton 99)) :=
  ⟨(add_twice_and_instance_errors).1 rfl rfl,
   (add_twice_and_instance_errors).2 rfl rfl (by decide)⟩

/-- Witness for C7: a nullable parameter on an unregistered class 99, and a
union parameter over classes 1 and 2. -/
theorem nullable_binds_none_and_union_rejected_w :
    resolveParamValue wInj (0 + 1) wSt none [] .Singleton
      ⟨"sub", .nullable ⟨99, []⟩, none⟩ = .ok (.vnone, wSt) ∧
    resolveParamValue wInj (0 + 1) wSt none [] .Singleton
      ⟨"v", .union [tyB, tyX], none⟩ = .error (.unionNotAllowed "v") :=
  ⟨(nullable_binds_none_and_union_rejected).1 ⟨99, []⟩ rfl (by decide) rfl rfl,
   (nullable_binds_none_and_union_rejected).2 [tyB, tyX] rfl (by decide)⟩

/-- Witness for C8: the generic Singleton class 11 required at the concrete
argument 12 directly and at 13 as a dependency parameter. -/
theorem generic_instances_tagged_w :
    genericMeta wStG 0 = some [12] ∧ genericMeta wStG2 0 = some [13] := by
  have hinv : Inv wSt := by
    constructor
    · intro e he
      simp [wSt] at he
    · intro sid e he
      simp [wSt] at he
  constructor
  · exact (generic_instances_tagged).1 5 wSt none [] 11 [12] (.obj 0) wStG hinv
      (by decide)
      (show resolveType wInj 5 wSt none [] ⟨11, [12]⟩ = .ok (.obj 0, wStG) from rfl)
      0 rfl
  · exact (generic_instances_tagged).2 5 wSt none [] .Singleton
      ⟨"g", .concrete ⟨11, [13]⟩, none⟩ ⟨11, [13]⟩ wRegG (.obj 0) wStG2 hinv rfl
      (by decide) (show wInj.find (11 : Nat) = some wRegG from rfl)
      (show resolveParamValue wInj 5 wSt none [] .Singleton
        ⟨"g", .concrete ⟨11, [13]⟩, none⟩ = .ok (.obj 0, wStG2) from rfl)
      0 rfl

/-- Witness for C9: class 13 whose lineage is base class 14 (one hook taking
the Singleton `tyB`) then class 13 itself (one hook with a nullable
parameter). -/
theorem init_hooks_base_first_w :
    ∃ i o, Value.obj 0 = Value.obj i ∧ wStH.heap[i]? = some o ∧
      o.hookRuns.map (fun r => (r.1, r.2.1)) =
        (allHooks wInj wRegH.lineage).map (fun x => (x.1, x.2.1)) ∧
      o.hookRuns.map (fun r => r.2.2.map Prod.fst) =
        (allHooks wInj wRegH.lineage).map (fun x => x.2.2.params.map Param.name) :=
  init_hooks_base_first (show wInj.find tyH.origin = some wRegH from rfl) (by decide)
    (show cacheLookup wRegH.strategy wSt none tyH = .ok none from rfl)
    (show resolveType wInj 6 wSt none [] tyH = .ok (.obj 0, wStH) from rfl)

/-- Witness for C10: requiring the `Injection` type on the root resolver and
on session resolvers. -/
theorem require_returns_self_resolver_w :
    (∀ sess : Option Nat, wInj.require (0 + 1) wSt sess ⟨0, []⟩ =
      .ok (.resolver sess, wSt)) ∧
    (∀ s1 s2 : Option Nat, (Value.resolver s1 = Value.resolver s2) ↔ s1 = s2) :=
  require_returns_self_resolver (by decide)

end Flasque
